import Mathlib

/-!
# twitch-search: a Lean model of `main.go`

The program is one Go file.  Its control flow (`main`, `die`, the callback
handler, `searchChannel`, `loggedUserID`, `makeReq`) is embedded below as pure
functions from a `World` (everything the operating system, the network and the
user contribute to one run) to a `Run` (the ordered list of observable effects
and the way the process ends).

Library code that the program calls is not part of the repository.  It enters
the model in two ways:

* text-level services whose exact output the program never inspects
  (JSON lexing, `strconv.Quote`, `path.Join`, `strings.ToLower`, RFC 3339 time
  text, the authorization URL) are fields of `Lib`; the general theorems are
  stated for an arbitrary `Lib`, and the concrete runs and the round trip of
  the token file use the instance `refLib`;
* the documented decision logic of `encoding/json` on parsed values and its
  writing of strings (`appendString`), of `unicode/utf8`, of
  `golang.org/x/oauth2` (`Token.Valid`, the reusing token source, the
  refresher) and of `net/http` (one handler invocation per request, panics in
  a handler are recovered) is written out as definitions named after the
  library functions.

Conventions of the model:

* a Go `string` that the program only passes on as text is a Lean `String`; the
  strings of an `oauth2.Token`, which the program writes to and reads from the
  token file, are the byte strings they are in Go (`Bytes`), because
  `json.Marshal` does not write bytes that are not UTF-8 as they are;
* a `time.Time` is the instant it denotes, in nanoseconds from the zero time
  (location and monotonic reading are not part of the model);
* the goroutines of the HTTP server are interleaved with `main` at three points
  (`World.reqsUntilResume`, `World.reqsBeforeStore`, `World.reqsAfterStore`), and
  each handler invocation is one step;
* the transport of the authenticated client is an oracle (`World.httpGet`); the
  clock read by `Token.Valid` is `World.now`.
-/

namespace TwitchSearch

/-! ## Data -/

/-- Go `[]byte`. -/
abbrev Bytes := List UInt8

/-! ## Go strings as bytes (`unicode/utf8`) -/

/-- Go `utf8.EncodeRune`. -/
def encodeRune (c : Char) : Bytes :=
  if c.toNat < 0x80 then [UInt8.ofNat c.toNat]
  else if c.toNat < 0x800 then
    [UInt8.ofNat (0xC0 + c.toNat / 64), UInt8.ofNat (0x80 + c.toNat % 64)]
  else if c.toNat < 0x10000 then
    [UInt8.ofNat (0xE0 + c.toNat / 4096), UInt8.ofNat (0x80 + c.toNat / 64 % 64),
     UInt8.ofNat (0x80 + c.toNat % 64)]
  else
    [UInt8.ofNat (0xF0 + c.toNat / 262144), UInt8.ofNat (0x80 + c.toNat / 4096 % 64),
     UInt8.ofNat (0x80 + c.toNat / 64 % 64), UInt8.ofNat (0x80 + c.toNat % 64)]

/-- Go `[]byte(s)` for a text: its UTF-8 encoding. -/
def bytes (s : String) : Bytes := s.data.flatMap encodeRune

/-- The byte is a UTF-8 continuation byte. -/
def isCont (b : UInt8) : Bool := decide (0x80 ≤ b.toNat ∧ b.toNat ≤ 0xBF)

/-- Go `utf8.DecodeRune`: the rune at the head and its size; `none` stands for
`(RuneError, 1)`, an invalid or truncated encoding (and for the empty input). -/
def decodeRune : Bytes → Option (Char × Nat)
  | [] => none
  | b0 :: rest =>
    if b0.toNat < 0x80 then some (Char.ofNat b0.toNat, 1)
    else if 0xC2 ≤ b0.toNat ∧ b0.toNat ≤ 0xDF then
      match rest with
      | b1 :: _ =>
        if isCont b1 then some (Char.ofNat ((b0.toNat - 0xC0) * 64 + (b1.toNat - 0x80)), 2)
        else none
      | [] => none
    else if 0xE0 ≤ b0.toNat ∧ b0.toNat ≤ 0xEF then
      match rest with
      | b1 :: b2 :: _ =>
        if (if b0.toNat = 0xE0 then 0xA0 else 0x80) ≤ b1.toNat
            ∧ b1.toNat ≤ (if b0.toNat = 0xED then 0x9F else 0xBF) ∧ isCont b2 = true then
          some (Char.ofNat ((b0.toNat - 0xE0) * 4096 + (b1.toNat - 0x80) * 64
            + (b2.toNat - 0x80)), 3)
        else none
      | _ => none
    else if 0xF0 ≤ b0.toNat ∧ b0.toNat ≤ 0xF4 then
      match rest with
      | b1 :: b2 :: b3 :: _ =>
        if (if b0.toNat = 0xF0 then 0x90 else 0x80) ≤ b1.toNat
            ∧ b1.toNat ≤ (if b0.toNat = 0xF4 then 0x8F else 0xBF)
            ∧ isCont b2 = true ∧ isCont b3 = true then
          some (Char.ofNat ((b0.toNat - 0xF0) * 262144 + (b1.toNat - 0x80) * 4096
            + (b2.toNat - 0x80) * 64 + (b3.toNat - 0x80)), 4)
        else none
      | _ => none
    else none

/-- Go `utf8.Valid`, scanning rune by rune; the first argument counts the bytes of the
current rune still to be passed over. -/
def validAux : Nat → Bytes → Bool
  | 0, [] => true
  | _ + 1, [] => false
  | skip + 1, _ :: rest => validAux skip rest
  | 0, b :: rest =>
    match decodeRune (b :: rest) with
    | none => false
    | some (_, k) => validAux (k - 1) rest

/-- Go `utf8.Valid`. -/
def utf8Valid (s : Bytes) : Bool := validAux 0 s

/-- The runes of a Go string as `for range` yields them: a byte that starts no valid
encoding gives U+FFFD. -/
def runesAux : Nat → Bytes → List Char
  | _, [] => []
  | skip + 1, _ :: rest => runesAux skip rest
  | 0, b :: rest =>
    match decodeRune (b :: rest) with
    | none => Char.ofNat 0xFFFD :: runesAux 0 rest
    | some (c, k) => c :: runesAux (k - 1) rest

/-! ## Values of the program -/

/-- A parsed JSON document.  Object members keep their textual order, numbers keep
their literal. -/
inductive JSON where
  | null : JSON
  | bool (b : Bool) : JSON
  | num (literal : String) : JSON
  | str (s : String) : JSON
  | arr (items : List JSON) : JSON
  | obj (members : List (String × JSON)) : JSON

/-- Library services used by the program whose results it treats as opaque values. -/
structure Lib where
  /-- Syntax layer of `json.Unmarshal`: the document, or the syntax error. -/
  jsonParse : Bytes → Except String JSON
  /-- Case-insensitive comparison used by `encoding/json` to match object keys. -/
  foldEq : String → String → Bool
  /-- Message of the `UnmarshalTypeError` raised for a value of the wrong kind. -/
  typeError : JSON → String
  /-- Result of `strconv.Quote`, the rendering of the verb `%q`. -/
  quote : String → String
  /-- Result of `path.Join` on two elements. -/
  pathJoin : String → String → String
  /-- Result of `strings.ToLower`. -/
  toLower : String → String
  /-- Result of `time.Time.MarshalJSON` without the surrounding quotes. -/
  timeMarshal : Int → Except String String
  /-- Result of `time.Time.UnmarshalJSON` on the content of a JSON string. -/
  timeUnmarshal : String → Except String Int
  /-- Result of `Time.Format("2006-01-02")`. -/
  formatDate : Int → String
  /-- Result of `Config.AuthCodeURL("")` for a client id, a redirect URL and scopes. -/
  authCodeURL : String → String → List String → String

/-- The global `clientCreds` once it points to a struct. -/
structure ClientCreds where
  ID : String
  Secret : String
  deriving DecidableEq, Repr

/-- The exported fields of `oauth2.Token`.  The three strings are Go strings, that is
byte strings of any content.  `Expiry` is an instant counted in nanoseconds from the
zero `time.Time`, so `Expiry = 0` is `Expiry.IsZero()`. -/
structure Token where
  AccessToken : Bytes
  TokenType : Bytes
  RefreshToken : Bytes
  Expiry : Int
  deriving DecidableEq, Repr

/-- The `oauth2.Config` built by `main` (the endpoint is the constant `twitch.Endpoint`). -/
structure Config where
  ClientID : String
  ClientSecret : String
  Scopes : List String
  RedirectURL : String
  deriving DecidableEq, Repr

/-- Element type of `searchRes.Data` in `searchChannel`. -/
structure Channel where
  ID : String
  Login : String
  Name : String
  deriving DecidableEq, Repr

/-- Element type of `searchRes.Data` in `main`. -/
structure Video where
  ID : String
  UserName : String
  UserLogin : String
  Title : String
  URL : String
  CreatedAt : Int
  deriving DecidableEq, Repr

/-- Outcome of `http.NewRequest`, `client.Do` and `io.ReadAll` for one URL. -/
inductive HttpResult where
  | badRequest (msg : String)
  | doFailed (msg : String)
  | readFailed (msg : String)
  | body (data : Bytes)
  deriving DecidableEq, Repr

/-- An HTTP request reaching the local server: its URL path and its form values
(query string and body), in order. -/
structure Request where
  path : String
  form : List (String × String)
  deriving DecidableEq, Repr

/-- Outcome of `os.ReadFile`. -/
inductive ReadResult where
  | ok (data : Bytes)
  | notExist (msg : String)
  | failed (msg : String)
  deriving DecidableEq, Repr

/-- Everything outside the process that one run depends on. -/
structure World where
  /-- Value of `-type` after `flag.Parse`. -/
  flagType : String
  /-- Value of `-vod` after `flag.Parse`. -/
  flagChan : String
  /-- Value of `-live` after `flag.Parse`. -/
  flagLive : Bool
  /-- Result of `os.UserHomeDir`. -/
  homeDir : Except String String
  /-- Result of `os.ReadFile` for each path. -/
  readFile : String → ReadResult
  /-- Result of `os.WriteFile` for each path and content: the error, if any. -/
  writeFile : String → Bytes → Option String
  /-- Error returned by `ListenAndServe` when the port cannot be bound. -/
  listenErr : Option String
  /-- Requests served from the start of the listener until `main` has passed
  `<-onCallback` and reaches line 111. -/
  reqsUntilResume : List Request
  /-- Requests served after `tokenSource.Token()` returned and before the token is
  marshalled. -/
  reqsBeforeStore : List Request
  /-- Requests served after the token file was written, while `main` runs the queries. -/
  reqsAfterStore : List Request
  /-- Answer of the token endpoint to the `n`-th code exchange of the run. -/
  exchange : Nat → String → Except String Token
  /-- Answer of the token endpoint to a refresh with the given refresh token. -/
  refresh : Bytes → Except String Token
  /-- Value of `time.Now()` when the token is checked, same unit as `Token.Expiry`. -/
  now : Int
  /-- What happens to a GET of each URL through the authenticated client. -/
  httpGet : String → HttpResult

/-- Observable effects of a run, in program order. -/
inductive Event where
  /-- `fmt.Printf` with the formatted text. -/
  | print (text : String)
  /-- `os.ReadFile`. -/
  | readFile (path : String)
  /-- `os.WriteFile`. -/
  | writeFile (path : String) (data : Bytes) (perm : Nat)
  /-- `server.ListenAndServe` started in its goroutine. -/
  | listen (addr : String)
  /-- `oauth2Config.Exchange`: one POST of the code to the token endpoint. -/
  | exchangeCall (code : String)
  /-- The refresher's POST of a refresh token to the token endpoint. -/
  | refreshCall (refreshToken : Bytes)
  /-- The first `close(onCallback)`. -/
  | signal
  /-- The panic of a repeated `close(onCallback)`, recovered by `net/http`. -/
  | handlerPanic
  /-- `http.NewRequest` plus `client.Do` with the `Client-ID` header. -/
  | httpGet (url : String) (clientID : String)
  /-- The deferred `server.Close()`. -/
  | serverClose
  deriving DecidableEq, Repr

/-- How the process ends. -/
inductive Outcome where
  /-- `main` returned: exit status 0. -/
  | returned
  /-- `os.Exit(code)` from `die`. -/
  | exit (code : Nat)
  /-- An unrecovered run-time panic of the main goroutine: exit status 2. -/
  | panic (msg : String)
  /-- `main` stays blocked on `<-onCallback`. -/
  | blocked
  deriving DecidableEq, Repr

/-- One run: the effects in order and the outcome. -/
structure Run where
  events : List Event
  outcome : Outcome
  deriving DecidableEq, Repr

/-- Prefix a run with earlier effects. -/
def Run.after (es : List Event) (r : Run) : Run :=
  { events := es ++ r.events, outcome := r.outcome }

/-- Go `die`: print the formatted message, then `os.Exit(1)`. -/
def die (msg : String) : Run :=
  { events := [Event.print msg], outcome := Outcome.exit 1 }

/-! ## Constants of `main.go` -/

def apiBase : String := "https://api.twitch.tv/helix"
def serverPort : Nat := 9001
def oauth2Callback : String := "callback"
def tokenFileName : String := ".twitch-search.json"
def credsFileName : String := ".twitch-search-client.json"

/-! ## `encoding/json` on parsed documents -/

/-- Field selection of `encoding/json`: the field named exactly like the key, otherwise
the first field whose name matches it case-insensitively. -/
def matchField (lib : Lib) (names : List String) (key : String) : Option String :=
  if names.contains key then some key else names.find? (fun n => lib.foldEq n key)

/-- Decoding into a Go `string`: `null` leaves the value, a JSON string replaces it,
anything else is an `UnmarshalTypeError`. -/
def decodeString (lib : Lib) (old : String) : JSON → Except String String
  | .null => .ok old
  | .str s => .ok s
  | v => .error (lib.typeError v)

/-- Decoding into a `time.Time` through `Time.UnmarshalJSON`.  The text handed to the
library is the decoded content of the JSON string (Go hands over the bytes between the
quotes, which are the same unless the time stamp is written with escapes). -/
def decodeTime (lib : Lib) (old : Int) : JSON → Except String Int
  | .null => .ok old
  | .str s => lib.timeUnmarshal s
  | v => .error (lib.typeError v)

/-- Decoding into a slice: `null` makes it nil, an array is decoded element by element
into zero elements. -/
def decodeSlice {α : Type} (lib : Lib) (elem : JSON → Except String α) :
    JSON → Except String (List α)
  | .null => .ok []
  | .arr items => items.mapM elem
  | v => .error (lib.typeError v)

/-- Decoding into a struct value: `null` leaves it, an object updates it member by
member in textual order, anything else is an `UnmarshalTypeError`. -/
def decodeStruct {α : Type} (lib : Lib) (member : α → String × JSON → Except String α)
    (old : α) : JSON → Except String α
  | .null => .ok old
  | .obj members => members.foldlM member old
  | v => .error (lib.typeError v)

/-- One object member decoded into the struct behind `clientCreds`. -/
def credsMember (lib : Lib) (c : ClientCreds) (kv : String × JSON) : Except String ClientCreds :=
  match matchField lib ["id", "secret"] kv.1 with
  | none => .ok c
  | some f =>
    if f = "id" then (decodeString lib c.ID kv.2).map (fun s => { c with ID := s })
    else (decodeString lib c.Secret kv.2).map (fun s => { c with Secret := s })

/-- Go `json.Unmarshal(credsBs, &clientCreds)` with `clientCreds` nil before the call:
the new value of the pointer (`none` is the nil pointer), or the error. -/
def unmarshalCreds (lib : Lib) (data : Bytes) : Except String (Option ClientCreds) :=
  match lib.jsonParse data with
  | .error e => .error e
  | .ok .null => .ok none
  | .ok (.obj members) => (members.foldlM (credsMember lib) ⟨"", ""⟩).map some
  | .ok v => .error (lib.typeError v)

/-- Decoding into a Go `string` kept as bytes: a JSON string replaces the value by the
UTF-8 encoding of its text. -/
def decodeBytes (lib : Lib) (old : Bytes) : JSON → Except String Bytes
  | .null => .ok old
  | .str s => .ok (bytes s)
  | v => .error (lib.typeError v)

/-- One object member decoded into an `oauth2.Token`. -/
def tokenMember (lib : Lib) (t : Token) (kv : String × JSON) : Except String Token :=
  match matchField lib ["access_token", "token_type", "refresh_token", "expiry"] kv.1 with
  | none => .ok t
  | some f =>
    if f = "access_token" then
      (decodeBytes lib t.AccessToken kv.2).map (fun s => { t with AccessToken := s })
    else if f = "token_type" then
      (decodeBytes lib t.TokenType kv.2).map (fun s => { t with TokenType := s })
    else if f = "refresh_token" then
      (decodeBytes lib t.RefreshToken kv.2).map (fun s => { t with RefreshToken := s })
    else (decodeTime lib t.Expiry kv.2).map (fun e => { t with Expiry := e })

/-- The zero `oauth2.Token` of `var t oauth2.Token`. -/
def Token.zero : Token := ⟨[], [], [], 0⟩

/-- Go `json.Unmarshal(tokenBs, &t)` into the zero token. -/
def unmarshalToken (lib : Lib) (data : Bytes) : Except String Token :=
  match lib.jsonParse data with
  | .error e => .error e
  | .ok v => decodeStruct lib (tokenMember lib) Token.zero v

/-- The lower-case hexadecimal digit of a value below 16. -/
def hexLower (n : Nat) : UInt8 := if n < 10 then UInt8.ofNat (48 + n) else UInt8.ofNat (87 + n)

/-- What `json.Marshal` writes for the ASCII character with code `n`: the quote and the
backslash behind a backslash, `\n`, `\r` and `\t` as such, the other control characters
and `<`, `>`, `&` as `\u00XX` (Go releases from 1.22 on write `\b` and `\f` for two of
them, which are read back alike), anything else as it is. -/
def escapeAscii (n : Nat) : Bytes :=
  if n = 0x5C ∨ n = 0x22 then [92, UInt8.ofNat n]
  else if n = 0x0A then [92, 110]
  else if n = 0x0D then [92, 114]
  else if n = 0x09 then [92, 116]
  else if n < 0x20 ∨ n = 0x3C ∨ n = 0x3E ∨ n = 0x26 then
    [92, 117, 48, 48, hexLower (n / 16), hexLower (n % 16)]
  else [UInt8.ofNat n]

/-- What `json.Marshal` writes for a rune that was decoded from the string: U+2028 and
U+2029 are escaped, other runes above ASCII are written in UTF-8. -/
def escapeRune (c : Char) : Bytes :=
  if c.toNat < 0x80 then escapeAscii c.toNat
  else if c.toNat = 0x2028 then [92, 117, 50, 48, 50, 56]
  else if c.toNat = 0x2029 then [92, 117, 50, 48, 50, 57]
  else encodeRune c

/-- The loop of `appendString` in `encoding/json`: a byte that starts no valid UTF-8
encoding is written as the escape `\ufffd`.  The first argument counts the bytes of
the current rune still to be passed over. -/
def appendAux : Nat → Bytes → Bytes
  | _, [] => []
  | skip + 1, _ :: rest => appendAux skip rest
  | 0, b :: rest =>
    match decodeRune (b :: rest) with
    | none => [92, 117, 102, 102, 102, 100] ++ appendAux 0 rest
    | some (c, k) => escapeRune c ++ appendAux (k - 1) rest

/-- The quoted JSON string `json.Marshal` writes for a Go string. -/
def appendString (s : Bytes) : Bytes := 34 :: appendAux 0 s ++ [34]

/-- Go `json.Marshal(token)`: one object with `access_token` and `expiry` always and
`token_type` and `refresh_token` unless empty (`omitempty`), in the order of the struct
fields, without white space; the expiry is the text of `Time.MarshalJSON` in quotes. -/
def marshalToken (lib : Lib) (t : Token) : Except String Bytes :=
  match lib.timeMarshal t.Expiry with
  | .error e => .error e
  | .ok e =>
    .ok (bytes "\x7b\"access_token\":" ++ appendString t.AccessToken
      ++ (if t.TokenType = [] then [] else bytes ",\"token_type\":" ++ appendString t.TokenType)
      ++ (if t.RefreshToken = [] then []
          else bytes ",\"refresh_token\":" ++ appendString t.RefreshToken)
      ++ bytes ",\"expiry\":\"" ++ bytes e ++ bytes "\"\x7d")

/-- One object member decoded into an element of `searchChannel`'s result list. -/
def channelMember (lib : Lib) (c : Channel) (kv : String × JSON) : Except String Channel :=
  match matchField lib ["id", "broadcaster_login", "display_name"] kv.1 with
  | none => .ok c
  | some f =>
    if f = "id" then (decodeString lib c.ID kv.2).map (fun s => { c with ID := s })
    else if f = "broadcaster_login" then
      (decodeString lib c.Login kv.2).map (fun s => { c with Login := s })
    else (decodeString lib c.Name kv.2).map (fun s => { c with Name := s })

/-- One member of the top-level object decoded into a struct whose only field is
`Data` with JSON name `data`. -/
def dataMember {α : Type} (lib : Lib) (elem : JSON → Except String α)
    (old : List α) (kv : String × JSON) : Except String (List α) :=
  match matchField lib ["data"] kv.1 with
  | none => .ok old
  | some _ => decodeSlice lib elem kv.2

/-- Go `json.Unmarshal(respBs, &searchRes)`: the resulting `searchRes.Data`. -/
def unmarshalData {α : Type} (lib : Lib) (elem : JSON → Except String α) (data : Bytes) :
    Except String (List α) :=
  match lib.jsonParse data with
  | .error e => .error e
  | .ok v => decodeStruct lib (dataMember lib elem) [] v

/-- Decoder of one entry of the channel search. -/
def decodeChannel (lib : Lib) : JSON → Except String Channel :=
  decodeStruct lib (channelMember lib) ⟨"", "", ""⟩

/-- Decoder of one entry of the users endpoint: the struct with the single field `ID`. -/
def decodeUser (lib : Lib) : JSON → Except String String :=
  decodeStruct lib
    (fun old kv => match matchField lib ["id"] kv.1 with
      | none => .ok old
      | some _ => decodeString lib old kv.2) ""

/-- One object member decoded into an element of `main`'s result list. -/
def videoMember (lib : Lib) (v : Video) (kv : String × JSON) : Except String Video :=
  match matchField lib ["id", "user_name", "user_login", "title", "url", "created_at"] kv.1 with
  | none => .ok v
  | some f =>
    if f = "id" then (decodeString lib v.ID kv.2).map (fun s => { v with ID := s })
    else if f = "user_name" then
      (decodeString lib v.UserName kv.2).map (fun s => { v with UserName := s })
    else if f = "user_login" then
      (decodeString lib v.UserLogin kv.2).map (fun s => { v with UserLogin := s })
    else if f = "title" then (decodeString lib v.Title kv.2).map (fun s => { v with Title := s })
    else if f = "url" then (decodeString lib v.URL kv.2).map (fun s => { v with URL := s })
    else (decodeTime lib v.CreatedAt kv.2).map (fun e => { v with CreatedAt := e })

/-- Decoder of one entry of the video and stream listings. -/
def decodeVideo (lib : Lib) : JSON → Except String Video :=
  decodeStruct lib (videoMember lib) ⟨"", "", "", "", "", 0⟩

/-! ## `golang.org/x/oauth2` -/

/-- The package constant `expiryDelta`: ten seconds, in nanoseconds. -/
def expiryDelta : Int := 10000000000

/-- Go `(*Token).expired`. -/
def Token.expired (now : Int) (t : Token) : Bool :=
  if t.Expiry = 0 then false else decide (t.Expiry - expiryDelta < now)

/-- Go `(*Token).Valid`: non-nil, non-empty access token, not expired. -/
def Token.Valid (now : Int) : Option Token → Bool
  | none => false
  | some t => t.AccessToken != [] && !t.expired now

/-- The part of `internal.RetrieveToken` after the HTTP round trip: a response without
access token is an error, and an empty refresh token is replaced by the one sent. -/
def retrieveToken (resp : Except String Token) (sentRefresh : Bytes) : Except String Token :=
  match resp with
  | .error e => .error e
  | .ok tk =>
    if tk.AccessToken = [] then .error "oauth2: server response missing access_token"
    else .ok (if tk.RefreshToken = [] then { tk with RefreshToken := sentRefresh } else tk)

/-- Go `(*tokenRefresher).Token`: no call at all without a refresh token, otherwise one
POST to the token endpoint. -/
def tokenRefresher_Token (w : World) (refreshToken : Bytes) :
    List Event × Except String Token :=
  if refreshToken = [] then ([], .error "oauth2: token expired and refresh token is not set")
  else ([Event.refreshCall refreshToken], retrieveToken (w.refresh refreshToken) refreshToken)

/-- Go `oauth2Config.TokenSource(ctx, token)` followed by `tokenSource.Token()`: the
reusing token source returns its token while it is valid and asks the refresher
otherwise. -/
def tokenSource_Token (w : World) (token : Option Token) : List Event × Except String Token :=
  match token with
  | none => tokenRefresher_Token w []
  | some t => if Token.Valid w.now (some t) then ([], .ok t) else tokenRefresher_Token w t.RefreshToken

/-! ## The callback server -/

/-- Variables shared by `main` and the handler: `token`, whether `onCallback` is
closed, and how many exchanges the run has made. -/
structure Shared where
  token : Option Token
  closed : Bool
  exchanges : Nat
  deriving DecidableEq, Repr

/-- Go `r.FormValue(key)`: the first value of the key, or the empty string. -/
def formValue (r : Request) (key : String) : String :=
  match r.form.find? (fun kv => kv.1 = key) with
  | some kv => kv.2
  | none => ""

/-- The listener serving requests one after the other.  A request for `/callback` runs
the handler of lines 88-95: exchange `FormValue("code")`, `die` on error, else store the
token and close `onCallback`.  Other paths are answered by the mux with 404.  The result
is `none` when a handler ended the process. -/
def serve (w : World) : Shared → List Request → List Event × Option Shared
  | st, [] => ([], some st)
  | st, r :: rs =>
    if r.path = "/" ++ oauth2Callback then
      match retrieveToken (w.exchange st.exchanges (formValue r "code")) [] with
      | .error e =>
        ([Event.exchangeCall (formValue r "code"),
          Event.print ("Exchanging code for token: " ++ e ++ "\n")], none)
      | .ok t =>
        let rest := serve w { token := some t, closed := true, exchanges := st.exchanges + 1 } rs
        (Event.exchangeCall (formValue r "code")
          :: (if st.closed then Event.handlerPanic else Event.signal) :: rest.1, rest.2)
    else serve w st rs

/-! ## `makeReq`, `searchChannel`, `loggedUserID` -/

/-- Result of a Go function returning `(T, error)` that may also panic. -/
inductive Result (α : Type) where
  | ok (value : α)
  | error (msg : String)
  | panic (msg : String)
  deriving DecidableEq, Repr

/-- Go `makeReq`: effects and `(respBs, err)`. -/
def makeReq (w : World) (creds : ClientCreds) (url : String) : List Event × Except String Bytes :=
  match w.httpGet url with
  | .badRequest e => ([], .error ("creating request: " ++ e))
  | .doFailed e => ([Event.httpGet url creds.ID], .error ("making request: " ++ e))
  | .readFailed e => ([Event.httpGet url creds.ID], .error ("reading reply: " ++ e))
  | .body data => ([Event.httpGet url creds.ID], .ok data)

/-- The loop of `searchChannel`: the id of the first entry whose lower-cased display
name or login equals `channel`, else the empty string. -/
def firstMatch (lib : Lib) (channel : String) : List Channel → String
  | [] => ""
  | r :: rs =>
    if lib.toLower r.Name = channel ∨ lib.toLower r.Login = channel then r.ID
    else firstMatch lib channel rs

/-- Go `searchChannel`. -/
def searchChannel (lib : Lib) (w : World) (creds : ClientCreds) (channel : String) :
    List Event × Except String String :=
  match makeReq w creds (apiBase ++ "/search/channels?first=100&query=" ++ channel) with
  | (es, .error e) => (es, .error e)
  | (es, .ok respBs) =>
    match unmarshalData lib (decodeChannel lib) respBs with
    | .error e => (es, .error ("parsing JSON: " ++ e))
    | .ok data => (es, .ok (firstMatch lib channel data))

/-- Go `loggedUserID`: `searchRes.Data[0]` panics on an empty list. -/
def loggedUserID (lib : Lib) (w : World) (creds : ClientCreds) : List Event × Result String :=
  match makeReq w creds (apiBase ++ "/users") with
  | (es, .error e) => (es, .error e)
  | (es, .ok respBs) =>
    match unmarshalData lib (decodeUser lib) respBs with
    | .error e => (es, .error ("parsing JSON: " ++ e))
    | .ok [] => (es, .panic "runtime error: index out of range [0] with length 0")
    | .ok (id :: _) => (es, .ok id)

/-! ## `main` -/

/-- The loop of lines 152-155. -/
def printLive (data : List Video) : List Event :=
  data.map (fun v => Event.print (v.UserLogin ++ " " ++ v.Title.replace "\n" " " ++ "\n"))

/-- The loop of lines 169-172. -/
def printVideos (lib : Lib) (data : List Video) : List Event :=
  data.map (fun v => Event.print
    (v.URL ++ " " ++ lib.formatDate v.CreatedAt ++ " " ++ v.Title.replace "\n" " " ++ "\n"))

/-- Lines 139-173 of `main`: the queries made with the authenticated client. -/
def queries (lib : Lib) (w : World) (creds : ClientCreds) (chan : String) : Run :=
  if w.flagLive then
    match loggedUserID lib w creds with
    | (es, .error e) => Run.after es (die ("Getting logged user ID: " ++ e ++ "\n"))
    | (es, .panic m) => { events := es, outcome := Outcome.panic m }
    | (es, .ok userID) =>
      match makeReq w creds (apiBase ++ "/streams/followed?user_id=" ++ userID) with
      | (es2, .error e) => Run.after (es ++ es2) (die ("Querying live channels: " ++ e ++ "\n"))
      | (es2, .ok respBs) =>
        match unmarshalData lib (decodeVideo lib) respBs with
        | .error e => Run.after (es ++ es2) (die ("Parsing JSON videos results: " ++ e ++ "\n"))
        | .ok data => { events := es ++ es2 ++ printLive data, outcome := Outcome.returned }
  else
    match searchChannel lib w creds chan with
    | (es, .error e) => Run.after es (die ("Searching channels: " ++ e ++ "\n"))
    | (es, .ok chanID) =>
      match makeReq w creds
          (apiBase ++ "/videos?first=100&type=" ++ w.flagType ++ "&user_id=" ++ chanID) with
      | (es2, .error e) => Run.after (es ++ es2) (die ("Searching videos: " ++ e ++ "\n"))
      | (es2, .ok respBs) =>
        match unmarshalData lib (decodeVideo lib) respBs with
        | .error e => Run.after (es ++ es2) (die ("Parsing JSON videos results: " ++ e ++ "\n"))
        | .ok data => { events := es ++ es2 ++ printVideos lib data, outcome := Outcome.returned }

/-- The deferred `server.Close()`: it runs when `main` returns or panics, and does not
run when the process leaves through `os.Exit`. -/
def withDeferredClose (listening : Bool) (r : Run) : Run :=
  if listening then
    match r.outcome with
    | .returned => { events := r.events ++ [Event.serverClose], outcome := r.outcome }
    | .panic _ => { events := r.events ++ [Event.serverClose], outcome := r.outcome }
    | _ => r
  else r

/-- Go `json.Marshal(token)` for the pointer `token`: a nil pointer is rendered as `null`. -/
def marshalTokenPtr (lib : Lib) : Option Token → Except String Bytes
  | none => .ok (bytes "null")
  | some t => marshalToken lib t

/-- Lines 126-173, with the callback requests served while the queries run. -/
def afterStore (lib : Lib) (w : World) (creds : ClientCreds) (chan : String)
    (listening : Bool) (st : Shared) : Run :=
  match serve w st (if listening then w.reqsAfterStore else []) with
  | (es, none) => { events := es, outcome := Outcome.exit 1 }
  | (es, some _) => Run.after es (withDeferredClose listening (queries lib w creds chan))

/-- Lines 117-124: marshal the variable `token` and write the token file with mode 0600. -/
def store (lib : Lib) (w : World) (creds : ClientCreds) (chan tokenPath : String)
    (listening : Bool) (st : Shared) : Run :=
  match marshalTokenPtr lib st.token with
  | .error e => die ("Marshalling token: " ++ e ++ "\n")
  | .ok tokenBs =>
    Run.after [Event.writeFile tokenPath tokenBs 0o600] <|
    match w.writeFile tokenPath tokenBs with
    | some e => die ("Storing token to file " ++ lib.quote tokenPath ++ ": " ++ e ++ "\n")
    | none => afterStore lib w creds chan listening st

/-- Lines 111-115 and everything after them: `tokenSource.Token()` is called once, its
result is assigned to `token`; callback requests may be served before the token is
marshalled. -/
def authenticated (lib : Lib) (w : World) (creds : ClientCreds) (chan tokenPath : String)
    (listening : Bool) (st : Shared) : Run :=
  match tokenSource_Token w st.token with
  | (es, .error e) => Run.after es (die ("Refreshing token: " ++ e ++ "\n"))
  | (es, .ok t) =>
    Run.after es <|
    match serve w { st with token := some t } (if listening then w.reqsBeforeStore else []) with
    | (es1, none) => { events := es1, outcome := Outcome.exit 1 }
    | (es1, some st1) => Run.after es1 (store lib w creds chan tokenPath listening st1)

/-- The branch `errors.Is(err, os.ErrNotExist)` of lines 84-106: register the handler,
start the listener, print the authorization URL and wait for `onCallback`. -/
def interactive (lib : Lib) (w : World) (creds : ClientCreds) (cfg : Config)
    (chan tokenPath : String) : Run :=
  Run.after
    [Event.listen ("localhost:" ++ toString serverPort),
     Event.print ("Open your browser to "
       ++ lib.authCodeURL cfg.ClientID cfg.RedirectURL cfg.Scopes ++ "\n")] <|
  match w.listenErr with
  | some e => die ("OAuth2 server exit: " ++ e ++ "\n")
  | none =>
    match serve w { token := none, closed := false, exchanges := 0 } w.reqsUntilResume with
    | (es, none) => { events := es, outcome := Outcome.exit 1 }
    | (es, some st) =>
      if st.closed then Run.after es (authenticated lib w creds chan tokenPath true st)
      else { events := es, outcome := Outcome.blocked }

/-- Lines 67-109: build the OAuth2 configuration and obtain the first value of `token`. -/
def loadToken (lib : Lib) (w : World) (creds : ClientCreds) (chan tokenPath : String) : Run :=
  let cfg : Config :=
    { ClientID := creds.ID, ClientSecret := creds.Secret, Scopes := ["user:read:follows"],
      RedirectURL := "http://localhost:" ++ toString serverPort ++ "/" ++ oauth2Callback }
  Run.after [Event.readFile tokenPath] <|
  match w.readFile tokenPath with
  | .ok tokenBs =>
    match unmarshalToken lib tokenBs with
    | .error e => die ("Parsing stored JSON in " ++ lib.quote tokenPath ++ ": " ++ e ++ "\n")
    | .ok t =>
      authenticated lib w creds chan tokenPath false { token := some t, closed := false, exchanges := 0 }
  | .notExist _ => interactive lib w creds cfg chan tokenPath
  | .failed e => die ("Reading token file " ++ lib.quote tokenPath ++ ": " ++ e ++ "\n")

/-- Lines 59-65 and the dereference of `clientCreds` at line 69. -/
def loadCreds (lib : Lib) (w : World) (chan userDir : String) : Run :=
  let tokenPath := lib.pathJoin userDir tokenFileName
  let credsPath := lib.pathJoin userDir credsFileName
  Run.after [Event.readFile credsPath] <|
  match w.readFile credsPath with
  | .notExist e =>
    die ("Reading client credentials from " ++ lib.quote credsPath ++ ": " ++ e ++ "\n")
  | .failed e =>
    die ("Reading client credentials from " ++ lib.quote credsPath ++ ": " ++ e ++ "\n")
  | .ok credsBs =>
    match unmarshalCreds lib credsBs with
    | .error e =>
      die ("Parsing client credentials from " ++ lib.quote credsPath ++ ": " ++ e ++ "\n")
    | .ok none =>
      { events := [],
        outcome := Outcome.panic "runtime error: invalid memory address or nil pointer dereference" }
    | .ok (some creds) => loadToken lib w creds chan tokenPath

/-- Go `main`, after `flag.Parse` accepted the command line. -/
def main (lib : Lib) (w : World) : Run :=
  if !w.flagLive && w.flagChan = "" then die "Channel to query is empty\n"
  else
    match w.homeDir with
    | .error e => die ("Getting user directory: " ++ e ++ "\n")
    | .ok userDir =>
      loadCreds lib w (if w.flagLive then w.flagChan else lib.toLower w.flagChan) userDir

/-! ## A reference instance of `Lib`

To run the model on concrete files, and to state the round trip of the token file
without assumptions on the library, the following instance implements the text
services: the JSON reader of `encoding/json` (strings are read as Go's `unquote` reads
them, numbers are kept as literals), quoting and joining of plain paths, query
escaping, and RFC 3339 time stamps in the proleptic Gregorian calendar for the years
0 to 9999, written in UTC.  Error texts are abbreviated. -/

/-- Skip JSON white space. -/
def skipWs : Bytes → Bytes
  | [] => []
  | b :: rest => if b = 32 ∨ b = 9 ∨ b = 10 ∨ b = 13 then skipWs rest else b :: rest

/-- Value of a hexadecimal digit. -/
def hexVal (b : UInt8) : Option Nat :=
  if 48 ≤ b.toNat ∧ b.toNat ≤ 57 then some (b.toNat - 48)
  else if 97 ≤ b.toNat ∧ b.toNat ≤ 102 then some (b.toNat - 87)
  else if 65 ≤ b.toNat ∧ b.toNat ≤ 70 then some (b.toNat - 55)
  else none

/-- Value of four hexadecimal digits. -/
def hex4 (h1 h2 h3 h4 : UInt8) : Option Nat :=
  match hexVal h1, hexVal h2, hexVal h3, hexVal h4 with
  | some a, some b, some c, some d => some (((a * 16 + b) * 16 + c) * 16 + d)
  | _, _, _, _ => none

/-- The character code named by a simple escape letter. -/
def unescape (b : UInt8) : Option Nat :=
  if b = 34 then some 34
  else if b = 92 then some 92
  else if b = 47 then some 47
  else if b = 98 then some 8
  else if b = 102 then some 12
  else if b = 110 then some 10
  else if b = 114 then some 13
  else if b = 116 then some 9
  else none

/-- Value of the escape that follows a backslash, with the number of bytes it takes. -/
def escapeValue : Bytes → Option (Nat × Nat)
  | [] => none
  | e :: rest =>
    if e = 117 then
      match rest with
      | h1 :: h2 :: h3 :: h4 :: _ => (hex4 h1 h2 h3 h4).map fun v => (v, 5)
      | _ => none
    else (unescape e).map fun v => (v, 1)

/-- Go's reading of the units collected from a string: an escaped high surrogate
followed by an escaped low surrogate is one rune, any other surrogate is U+FFFD. -/
def combineUnits : List Nat → List Char
  | [] => []
  | [v] => [if 0xD800 ≤ v ∧ v < 0xE000 then Char.ofNat 0xFFFD else Char.ofNat v]
  | v :: w :: rest =>
    if 0xD800 ≤ v ∧ v < 0xDC00 ∧ 0xDC00 ≤ w ∧ w < 0xE000 then
      Char.ofNat (0x10000 + (v - 0xD800) * 1024 + (w - 0xDC00)) :: combineUnits rest
    else if 0xD800 ≤ v ∧ v < 0xE000 then Char.ofNat 0xFFFD :: combineUnits (w :: rest)
    else Char.ofNat v :: combineUnits (w :: rest)

/-- Read a string body up to its closing quote.  The first argument counts the bytes of
the current rune or escape still to be passed over, `acc` holds the units read so far,
last first.  Control characters are refused; a byte that starts no valid UTF-8 encoding
is read as U+FFFD. -/
def lexString : Nat → Bytes → List Nat → Option (String × Bytes)
  | _, [], _ => none
  | skip + 1, _ :: rest, acc => lexString skip rest acc
  | 0, b :: rest, acc =>
    if b = 34 then some (String.mk (combineUnits acc.reverse), rest)
    else if b = 92 then
      match escapeValue rest with
      | none => none
      | some (v, k) => lexString k rest (v :: acc)
    else if b.toNat < 0x20 then none
    else if b.toNat < 0x80 then lexString 0 rest (b.toNat :: acc)
    else
      match decodeRune (b :: rest) with
      | none => lexString 0 rest (0xFFFD :: acc)
      | some (c, k) => lexString (k - 1) rest (c.toNat :: acc)

/-- Read the longest run of number characters. -/
def lexNumber : Bytes → List Char → String × Bytes
  | [], acc => (String.mk acc.reverse, [])
  | b :: rest, acc =>
    if (48 ≤ b ∧ b ≤ 57) ∨ b = 45 ∨ b = 43 ∨ b = 46 ∨ b = 101 ∨ b = 69
    then lexNumber rest (Char.ofNat b.toNat :: acc)
    else (String.mk acc.reverse, b :: rest)

mutual
/-- Read one JSON value. -/
def parseValue : Nat → Bytes → Option (JSON × Bytes)
  | 0, _ => none
  | fuel + 1, bs =>
    match skipWs bs with
    | [] => none
    | b :: rest =>
      if b = 34 then (lexString 0 rest []).map (fun p => (JSON.str p.1, p.2))
      else if b = 91 then
        match skipWs rest with
        | [] => none
        | c :: rest1 =>
          if c = 93 then some (JSON.arr [], rest1)
          else (parseItems fuel (c :: rest1)).map (fun p => (JSON.arr p.1, p.2))
      else if b = 123 then
        match skipWs rest with
        | [] => none
        | c :: rest1 =>
          if c = 125 then some (JSON.obj [], rest1)
          else (parseMembers fuel (c :: rest1)).map (fun p => (JSON.obj p.1, p.2))
      else if (48 ≤ b ∧ b ≤ 57) ∨ b = 45 then
        some (JSON.num (lexNumber (b :: rest) []).1, (lexNumber (b :: rest) []).2)
      else
        match b :: rest with
        | 110 :: 117 :: 108 :: 108 :: rest1 => some (JSON.null, rest1)
        | 116 :: 114 :: 117 :: 101 :: rest1 => some (JSON.bool true, rest1)
        | 102 :: 97 :: 108 :: 115 :: 101 :: rest1 => some (JSON.bool false, rest1)
        | _ => none
/-- Read the items of an array up to the closing bracket. -/
def parseItems : Nat → Bytes → Option (List JSON × Bytes)
  | 0, _ => none
  | fuel + 1, bs =>
    match parseValue fuel bs with
    | none => none
    | some (v, rest) =>
      match skipWs rest with
      | [] => none
      | c :: rest1 =>
        if c = 44 then (parseItems fuel rest1).map (fun p => (v :: p.1, p.2))
        else if c = 93 then some ([v], rest1)
        else none
/-- Read the members of an object up to the closing brace. -/
def parseMembers : Nat → Bytes → Option (List (String × JSON) × Bytes)
  | 0, _ => none
  | fuel + 1, bs =>
    match skipWs bs with
    | [] => none
    | q :: rest =>
      if q = 34 then
        match lexString 0 rest [] with
        | none => none
        | some (k, rest1) =>
          match skipWs rest1 with
          | [] => none
          | c :: rest2 =>
            if c = 58 then
              match parseValue fuel rest2 with
              | none => none
              | some (v, rest3) =>
                match skipWs rest3 with
                | [] => none
                | d :: rest4 =>
                  if d = 44 then (parseMembers fuel rest4).map (fun p => ((k, v) :: p.1, p.2))
                  else if d = 125 then some ([(k, v)], rest4)
                  else none
            else none
      else none
end

/-- Read a whole document. -/
def parseDocument (bs : Bytes) : Except String JSON :=
  match parseValue (bs.length + 1) bs with
  | some (v, rest) =>
    if skipWs rest = [] then .ok v else .error "invalid character after top-level value"
  | none => .error "invalid character looking for beginning of value"

/-- ASCII lower-casing. -/
def asciiLower (s : String) : String := String.mk (s.data.map Char.toLower)

/-- The upper-case hexadecimal digit of a value below 16, as a character. -/
def hexUpper (n : Nat) : Char := if n < 10 then Char.ofNat (48 + n) else Char.ofNat (55 + n)

/-- Go `url.QueryEscape` on ASCII text. -/
def queryEscape (s : String) : String :=
  String.mk (s.data.flatMap (fun c =>
    if c.isAlphanum ∨ c = '-' ∨ c = '_' ∨ c = '.' ∨ c = '~' then [c]
    else if c = ' ' then ['+']
    else ['%', hexUpper (c.toNat / 16), hexUpper (c.toNat % 16)]))

/-- The day `z`, counted from 1 March of the year -400, in the proleptic Gregorian
calendar: the number of the year that starts in March (0 for the one starting in the
year -400), the month counted from March (0 to 11) and the day of the month.  The day
is split into cycles of 400, 100, 4 and 1 years as in Go's `absDate`. -/
def civilFromDays (z : Nat) : Nat × Nat × Nat :=
  let n400 := z / 146097
  let r := z % 146097
  let n100 := if r / 36524 = 4 then 3 else r / 36524
  let r2 := r - n100 * 36524
  let n4 := r2 / 1461
  let r3 := r2 % 1461
  let n1 := if r3 / 365 = 4 then 3 else r3 / 365
  let doy := r3 - n1 * 365
  let mp := (5 * doy + 2) / 153
  (400 * n400 + 100 * n100 + 4 * n4 + n1, mp, doy - (153 * mp + 2) / 5 + 1)

/-- The day, counted from 1 March of the year -400, of the day `d` of the month `mp`
after March in the year `y` that starts in March. -/
def daysFromCivil (y mp d : Nat) : Nat :=
  y / 400 * 146097 + (y % 400 * 365 + y % 400 / 4 - y % 400 / 100) + (153 * mp + 2) / 5 + d - 1

/-- Calendar year, month and day of the day `u` counted from 0000-01-01. -/
def dateOf (u : Nat) : Nat × Nat × Nat :=
  ((civilFromDays (u + 146037)).1 + (if 10 ≤ (civilFromDays (u + 146037)).2.1 then 1 else 0) - 400,
   if (civilFromDays (u + 146037)).2.1 < 10 then (civilFromDays (u + 146037)).2.1 + 3
   else (civilFromDays (u + 146037)).2.1 - 9,
   (civilFromDays (u + 146037)).2.2)

/-- Number of the day of a calendar date, counted from 0000-01-01. -/
def dayNumber (y m d : Nat) : Nat :=
  daysFromCivil (y + 400 - (if m ≤ 2 then 1 else 0)) (if 2 < m then m - 3 else m + 9) d - 146037

/-- Go `daysIn`: the length of a month. -/
def daysIn (m y : Nat) : Nat :=
  if m = 2 then (if y % 4 = 0 ∧ (y % 100 ≠ 0 ∨ y % 400 = 0) then 29 else 28)
  else if m = 4 ∨ m = 6 ∨ m = 9 ∨ m = 11 then 30
  else 31

/-- The instant 0000-01-01T00:00:00Z, in nanoseconds from the zero time. -/
def minInstant : Int := -31622400000000000

/-- The instant 10000-01-01T00:00:00Z, in nanoseconds from the zero time. -/
def maxInstant : Int := 315537897600000000000

/-- The decimal digit of the units of `n`. -/
def digitChar (n : Nat) : Char := Char.ofNat (48 + n % 10)

/-- Value of a decimal digit. -/
def digitOf (c : Char) : Option Nat :=
  if 48 ≤ c.toNat ∧ c.toNat ≤ 57 then some (c.toNat - 48) else none

/-- Two decimal digits. -/
def two (n : Nat) : List Char := [digitChar (n / 10), digitChar n]

/-- Four decimal digits. -/
def four (n : Nat) : List Char :=
  [digitChar (n / 1000), digitChar (n / 100), digitChar (n / 10), digitChar n]

/-- Drop the zeros at the end. -/
def trimZeros (l : List Nat) : List Nat := (l.reverse.dropWhile (fun d => d = 0)).reverse

/-- The nine decimal digits of a number of nanoseconds below one second. -/
def nineDigits (n : Nat) : List Nat :=
  [n / 100000000 % 10, n / 10000000 % 10, n / 1000000 % 10, n / 100000 % 10, n / 10000 % 10,
   n / 1000 % 10, n / 100 % 10, n / 10 % 10, n % 10]

/-- The fraction of a second in RFC 3339 text with nanoseconds: nothing for zero, else
the nine digits without trailing zeros. -/
def fraction (nanos : Nat) : List Char :=
  if nanos = 0 then [] else '.' :: (trimZeros (nineDigits nanos)).map digitChar

/-- The text `2006-01-02` of the day `u` counted from 0000-01-01. -/
def dateText (u : Nat) : List Char :=
  four (dateOf u).1 ++ '-' :: two (dateOf u).2.1 ++ '-' :: two (dateOf u).2.2

/-- RFC 3339 text, in UTC, of an instant counted in nanoseconds from the zero time;
`Time.MarshalJSON` refuses years outside 0 to 9999. -/
def formatRFC3339 (t : Int) : Except String String :=
  if t < minInstant ∨ maxInstant ≤ t then
    .error "Time.MarshalJSON: year outside of range [0,9999]"
  else
    .ok (String.mk (dateText ((t - minInstant).toNat / 1000000000 / 86400)
      ++ 'T' :: two ((t - minInstant).toNat / 1000000000 % 86400 / 3600)
      ++ ':' :: two ((t - minInstant).toNat / 1000000000 % 3600 / 60)
      ++ ':' :: two ((t - minInstant).toNat / 1000000000 % 60)
      ++ fraction ((t - minInstant).toNat % 1000000000) ++ ['Z']))

/-- Value of two decimal digits. -/
def num2 (c1 c2 : Char) : Option Nat :=
  match digitOf c1, digitOf c2 with
  | some a, some b => some (10 * a + b)
  | _, _ => none

/-- Value of four decimal digits. -/
def num4 (c1 c2 c3 c4 : Char) : Option Nat :=
  match num2 c1 c2, num2 c3 c4 with
  | some a, some b => some (100 * a + b)
  | _, _ => none

/-- The leading decimal digits of a text and what follows them. -/
def spanDigits : List Char → List Nat × List Char
  | [] => ([], [])
  | c :: cs =>
    match digitOf c with
    | some d => (d :: (spanDigits cs).1, (spanDigits cs).2)
    | none => ([], c :: cs)

/-- Nanoseconds named by the digits of a fraction; digits after the ninth are ignored. -/
def nanosOf (ds : List Nat) : Nat :=
  (ds.take 9).foldl (fun a d => 10 * a + d) 0 * 10 ^ (9 - (ds.take 9).length)

/-- Seconds east of UTC named by a zone: `Z`, or a sign with hours and minutes. -/
def zoneOffset (z : List Char) : Option Int :=
  if z = ['Z'] then some 0
  else
    match z with
    | [sg, a, b, c, d, e] =>
      if (sg = '+' ∨ sg = '-') ∧ c = ':' then
        match num2 a b, num2 d e with
        | some hh, some mm =>
          if 23 < hh ∨ 59 < mm then none
          else
            some (if sg = '-' then -(((hh * 60 + mm) * 60 : Nat) : Int)
              else (((hh * 60 + mm) * 60 : Nat) : Int))
        | _, _ => none
      else none
    | _ => none

/-- The text after the seconds: the nanoseconds of an optional fraction, then the zone. -/
def parseTail (rest : List Char) : Option (Nat × Int) :=
  match rest with
  | p :: q :: cs =>
    if p = '.' ∧ (digitOf q).isSome then
      (zoneOffset (spanDigits (q :: cs)).2).map fun z => (nanosOf (spanDigits (q :: cs)).1, z)
    else (zoneOffset rest).map fun z => (0, z)
  | _ => (zoneOffset rest).map fun z => (0, z)

/-- The instant of a civil date and time of day in UTC. -/
def instant (y m d h mi sec nanos : Nat) : Int :=
  (((dayNumber y m d * 86400 + h * 3600 + mi * 60 + sec) * 1000000000 + nanos : Nat) : Int)
    + minInstant

/-- Instant denoted by an RFC 3339 text, as Go's `parseRFC3339` reads it: fields of
fixed width, a day that exists in its month, an optional fraction of a second, and the
zone `Z` or an offset in hours and minutes. -/
def parseRFC3339 (s : String) : Except String Int :=
  match s.data with
  | y1 :: y2 :: y3 :: y4 :: p1 :: m1 :: m2 :: p2 :: d1 :: d2 :: p3
      :: h1 :: h2 :: p4 :: n1 :: n2 :: p5 :: s1 :: s2 :: rest =>
    if p1 = '-' ∧ p2 = '-' ∧ p3 = 'T' ∧ p4 = ':' ∧ p5 = ':' then
      match num4 y1 y2 y3 y4, num2 m1 m2, num2 d1 d2, num2 h1 h2, num2 n1 n2, num2 s1 s2 with
      | some y, some m, some d, some h, some mi, some sec =>
        if m = 0 ∨ 12 < m ∨ d = 0 ∨ daysIn m y < d ∨ 23 < h ∨ 59 < mi ∨ 59 < sec then
          .error "parsing time: value out of range"
        else
          match parseTail rest with
          | some (nanos, zone) => .ok (instant y m d h mi sec nanos - zone * 1000000000)
          | none => .error "parsing time: bad fraction or zone"
      | _, _, _, _, _, _ => .error "parsing time: not a number"
    else .error "parsing time: not an RFC 3339 time"
  | _ => .error "parsing time: not an RFC 3339 time"

/-- The instant 2022-06-01T00:00:00Z in nanoseconds from the zero time. -/
def june2022 : Int := 63789638400000000000

/-- The reference instance. -/
def refLib : Lib where
  jsonParse := parseDocument
  foldEq := fun a b => asciiLower a = asciiLower b
  typeError := fun _ => "json: cannot unmarshal value of the wrong kind"
  quote := fun p => "\"" ++ p ++ "\""
  pathJoin := fun dir name => dir ++ "/" ++ name
  toLower := asciiLower
  timeMarshal := formatRFC3339
  timeUnmarshal := parseRFC3339
  formatDate := fun t => String.mk (dateText ((t - minInstant).toNat / 1000000000 / 86400))
  authCodeURL := fun id redirect scopes =>
    "https://id.twitch.tv/oauth2/authorize?client_id=" ++ queryEscape id
      ++ "&redirect_uri=" ++ queryEscape redirect
      ++ "&response_type=code&scope=" ++ queryEscape (String.intercalate " " scopes)

/-! ## Example worlds -/

/-- A first run on a machine with a client identity and no token file: `-vod Foo`, the
browser calls back once with code `abc`, the provider answers the exchange with a token
valid until June 2022 while the clock shows the zero time plus one second. -/
def firstRun : World where
  flagType := "archive"
  flagChan := "Foo"
  flagLive := false
  homeDir := .ok "/home/u"
  readFile := fun p =>
    if p = "/home/u/.twitch-search-client.json" then
      .ok (bytes "\x7b\"id\":\"cid\",\"secret\":\"sec\"\x7d")
    else .notExist "no such file or directory"
  writeFile := fun _ _ => none
  listenErr := none
  reqsUntilResume := [{ path := "/callback", form := [("code", "abc")] }]
  reqsBeforeStore := []
  reqsAfterStore := []
  exchange := fun n code =>
    if n = 0 ∧ code = "abc" then .ok ⟨bytes "at1", bytes "bearer", bytes "rt1", june2022⟩
    else .error "oauth2: cannot fetch token: 400 Bad Request"
  refresh := fun _ => .ok ⟨bytes "at2", bytes "bearer", [], june2022⟩
  now := 1000000000
  httpGet := fun url =>
    if url = "https://api.twitch.tv/helix/search/channels?first=100&query=foo" then
      .body (bytes "\x7b\"data\":[\x7b\"id\":\"7\",\"broadcaster_login\":\"foo\",\"display_name\":\"Foo\"\x7d]\x7d")
    else if url = "https://api.twitch.tv/helix/users" then .body (bytes "\x7b\"data\":[]\x7d")
    else .body (bytes "\x7b\"data\":[]\x7d")

/-- The run `-live` of a user whose token is rejected by the API: the users endpoint
answers with the JSON error body of status 401, which has no `data` member. -/
def liveRejected : World :=
  { firstRun with
    flagLive := true
    flagChan := ""
    httpGet := fun _ =>
      .body (bytes "\x7b\"error\":\"Unauthorized\",\"status\":401,\"message\":\"Invalid OAuth token\"\x7d") }

/-- A machine without the client-identity file. -/
def noConfig : World :=
  { firstRun with readFile := fun _ => .notExist "no such file or directory" }

/-- The token file left by `firstRun`, read one hour before the token expires:
the cached access token is not expired. -/
def cachedValid : World :=
  { firstRun with
    readFile := fun p =>
      if p = "/home/u/.twitch-search-client.json" then
        .ok (bytes "\x7b\"id\":\"cid\",\"secret\":\"sec\"\x7d")
      else if p = "/home/u/.twitch-search.json" then
        .ok (bytes ("\x7b\"access_token\":\"at1\",\"token_type\":\"bearer\","
          ++ "\"refresh_token\":\"rt1\",\"expiry\":\"2022-06-01T00:00:00Z\"\x7d"))
      else .notExist "no such file or directory"
    reqsUntilResume := []
    now := june2022 - 3600000000000 }

/-- The same token file read one hour after the token expired. -/
def cachedExpired : World :=
  { cachedValid with now := june2022 + 3600000000000 }

/-- A first run while another process holds port 9001. -/
def portBusy : World :=
  { firstRun with listenErr := some "listen tcp 127.0.0.1:9001: bind: address already in use" }

/-- A first run in which the user refuses consent: the provider redirects the browser
to `/callback?error=access_denied`, and the token endpoint rejects every exchange. -/
def consentDenied : World :=
  { firstRun with
    reqsUntilResume := [{ path := "/callback", form := [("error", "access_denied")] }]
    exchange := fun _ _ => .error "oauth2: cannot fetch token: 400 Bad Request" }

/-- A first run in which the browser requests the callback URL a second time right
after the first request was handled. -/
def reloadBeforeStore : World :=
  { firstRun with
    reqsBeforeStore := [{ path := "/callback", form := [("code", "abc")] }] }

/-- A first run in which the browser requests the callback URL a second time while
the queries run, after the token file was written. -/
def reloadAfterStore : World :=
  { firstRun with
    reqsAfterStore := [{ path := "/callback", form := [("code", "abc")] }] }

/-- A first run in which a second callback request carries another code that the
provider accepts. -/
def secondGrant : World :=
  { firstRun with
    reqsBeforeStore := [{ path := "/callback", form := [("code", "xyz")] }]
    exchange := fun _ code =>
      if code = "abc" then .ok ⟨bytes "at1", bytes "bearer", bytes "rt1", june2022⟩
      else .ok ⟨bytes "at9", bytes "bearer", bytes "rt9", june2022⟩ }

/-- A client-identity file holding the empty object; the provider rejects the exchange
made without a client id. -/
def emptyObjectConfig : World :=
  { firstRun with
    readFile := fun p =>
      if p = "/home/u/.twitch-search-client.json" then .ok (bytes "\x7b\x7d")
      else .notExist "no such file or directory"
    exchange := fun _ _ => .error "oauth2: cannot fetch token: 400 Bad Request" }

/-- A client-identity file holding the JSON value `null`. -/
def nullConfig : World :=
  { firstRun with
    readFile := fun p =>
      if p = "/home/u/.twitch-search-client.json" then .ok (bytes "null")
      else .notExist "no such file or directory" }

/-- A client-identity file holding a JSON array. -/
def arrayConfig : World :=
  { firstRun with
    readFile := fun p =>
      if p = "/home/u/.twitch-search-client.json" then .ok (bytes "[1,2]")
      else .notExist "no such file or directory" }

/-! ## Vocabulary for statements about runs -/

/-- The event is a code exchange. -/
def Event.isExchange : Event → Bool
  | .exchangeCall _ => true
  | _ => false

/-- The event is a refresh call. -/
def Event.isRefresh : Event → Bool
  | .refreshCall _ => true
  | _ => false

/-- The event is a write of a file. -/
def Event.isWrite : Event → Bool
  | .writeFile _ _ _ => true
  | _ => false

/-- The event is the start of the listener. -/
def Event.isListen : Event → Bool
  | .listen _ => true
  | _ => false

/-- The event is printed text or a GET through the authenticated client. -/
def Event.isOutput : Event → Bool
  | .print _ => true
  | .httpGet _ _ => true
  | _ => false

/-- The event belongs to the serving of a callback request. -/
def Event.isServing : Event → Bool
  | .exchangeCall _ => true
  | .print _ => true
  | .signal => true
  | .handlerPanic => true
  | _ => false

/-- The request is routed to the callback handler. -/
def Request.isCallback (r : Request) : Bool := decide (r.path = "/" ++ oauth2Callback)

/-- The value of `*flagChan` after line 48. -/
def World.chan (lib : Lib) (w : World) : String :=
  if w.flagLive then w.flagChan else lib.toLower w.flagChan

/-- The run reaches credential loading: the flags are accepted, the home directory is
`home`, and the client-identity file is read and decoded into `creds`. -/
structure Reached (lib : Lib) (w : World) (home : String) (creds : ClientCreds) : Prop where
  flags : w.flagLive = true ∨ w.flagChan ≠ ""
  homeDir : w.homeDir = .ok home
  config : ∃ credsBs, w.readFile (lib.pathJoin home credsFileName) = .ok credsBs
    ∧ unmarshalCreds lib credsBs = .ok (some creds)

/-- The event can occur after the token was loaded: it is neither a file read nor the
start of the listener. -/
def Event.isLate : Event → Bool
  | .readFile _ => false
  | .listen _ => false
  | _ => true

/-- The document is a JSON string or `null`: what decoding into a Go `string` accepts. -/
def JSON.isStringOrNull : JSON → Bool
  | .str _ => true
  | .null => true
  | _ => false

/-- The document is a JSON object or `null`: what decoding into a struct accepts. -/
def JSON.isObjectOrNull : JSON → Bool
  | .obj _ => true
  | .null => true
  | _ => false

/-- Contents of the client-identity file that `json.Unmarshal` rejects: text that is
not JSON, a document that is neither an object nor `null`, or an object with a member
for `id` or `secret` that is neither a string nor `null`. -/
def rejectedConfig (lib : Lib) (credsBs : Bytes) : Prop :=
  (∃ e, lib.jsonParse credsBs = .error e)
  ∨ (∃ v, lib.jsonParse credsBs = .ok v ∧ v.isObjectOrNull = false)
  ∨ (∃ members, lib.jsonParse credsBs = .ok (.obj members)
      ∧ ∃ kv ∈ members, matchField lib ["id", "secret"] kv.1 ≠ none ∧ kv.2.isStringOrNull = false)

/-! ## Theorems -/

/-- C10: at the response body of a rejected token, which parses and has no `data`
member, `loggedUserID` does not return: the index `searchRes.Data[0]` is out of range
and `main` ends in a run-time panic. -/
theorem loggedUserID_panics_without_data :
    (loggedUserID refLib liveRejected ⟨"cid", "sec"⟩).2
        = .panic "runtime error: index out of range [0] with length 0"
      ∧ (main refLib liveRejected).outcome
        = .panic "runtime error: index out of range [0] with length 0" := by
  decide

/-- C8: with accepted flags and a home directory, when reading the client-identity file
fails because it does not exist, the run consists of that read and of one printed
message, which names the reading of the client credentials and the quoted path of the
file, and the process exits with status 1; no other file is read, nothing is written
and no request is made. -/
theorem missing_config_is_reported (lib : Lib) (w : World) (home msg : String)
    (hflags : w.flagLive = true ∨ w.flagChan ≠ "")
    (hhome : w.homeDir = .ok home)
    (hmissing : w.readFile (lib.pathJoin home credsFileName) = .notExist msg) :
    main lib w =
      { events :=
          [Event.readFile (lib.pathJoin home credsFileName),
           Event.print ("Reading client credentials from "
             ++ lib.quote (lib.pathJoin home credsFileName) ++ ": " ++ msg ++ "\n")],
        outcome := Outcome.exit 1 } := by
  have h1 : (!w.flagLive && decide (w.flagChan = "")) = false := by
    rcases hflags with h | h <;> simp [h]
  simp [main, h1, hhome, loadCreds, hmissing, die, Run.after]

theorem missing_config_is_reported_witness :
    main refLib noConfig =
      { events :=
          [Event.readFile "/home/u/.twitch-search-client.json",
           Event.print ("Reading client credentials from "
             ++ "\"/home/u/.twitch-search-client.json\"" ++ ": " ++ "no such file or directory" ++ "\n")],
        outcome := Outcome.exit 1 } :=
  missing_config_is_reported refLib noConfig "/home/u" "no such file or directory"
    (Or.inr (by decide)) rfl rfl

/-! ### Structure of runs -/

theorem main_reached (lib : Lib) (w : World) (home : String) (creds : ClientCreds)
    (h : Reached lib w home creds) :
    main lib w = Run.after [Event.readFile (lib.pathJoin home credsFileName)]
      (loadToken lib w creds (w.chan lib) (lib.pathJoin home tokenFileName)) := by
  obtain ⟨hflags, hhome, bs, hread, hdec⟩ := h
  have h1 : (!w.flagLive && decide (w.flagChan = "")) = false := by
    rcases hflags with h | h <;> simp [h]
  simp [main, h1, hhome, loadCreds, hread, hdec, World.chan]

theorem makeReq_output (w : World) (creds : ClientCreds) (url : String) :
    ∀ e ∈ (makeReq w creds url).1, e.isOutput = true := by
  intro e he
  unfold makeReq at he
  split at he <;> simp at he <;> subst he <;> rfl

theorem searchChannel_output (lib : Lib) (w : World) (creds : ClientCreds) (channel : String) :
    ∀ e ∈ (searchChannel lib w creds channel).1, e.isOutput = true := by
  intro e he
  unfold searchChannel at he
  split at he
  · rename_i es _ heq
    exact makeReq_output w creds _ e (by rw [heq]; exact he)
  · rename_i es _ heq
    split at he <;> exact makeReq_output w creds _ e (by rw [heq]; exact he)

theorem loggedUserID_output (lib : Lib) (w : World) (creds : ClientCreds) :
    ∀ e ∈ (loggedUserID lib w creds).1, e.isOutput = true := by
  intro e he
  unfold loggedUserID at he
  split at he
  · rename_i es _ heq
    exact makeReq_output w creds _ e (by rw [heq]; exact he)
  · rename_i es _ heq
    split at he <;> exact makeReq_output w creds _ e (by rw [heq]; exact he)

theorem queries_output (lib : Lib) (w : World) (creds : ClientCreds) (chan : String) :
    ∀ e ∈ (queries lib w creds chan).events, e.isOutput = true := by
  intro e he
  unfold queries at he
  split at he
  · split at he
    · rename_i es msg heq
      simp only [Run.after, die, List.mem_append, List.mem_singleton] at he
      rcases he with he | he
      · exact loggedUserID_output lib w creds e (by rw [heq]; exact he)
      · subst he; rfl
    · rename_i es msg heq
      exact loggedUserID_output lib w creds e (by rw [heq]; exact he)
    · rename_i es userID heq
      have h1 : ∀ x ∈ es, x.isOutput = true := fun x hx =>
        loggedUserID_output lib w creds x (by rw [heq]; exact hx)
      split at he
      · rename_i es2 msg heq2
        simp only [Run.after, die, List.mem_append, List.mem_singleton] at he
        rcases he with (he | he) | he
        · exact h1 e he
        · exact makeReq_output w creds _ e (by rw [heq2]; exact he)
        · subst he; rfl
      · rename_i es2 respBs heq2
        have h2 : ∀ x ∈ es2, x.isOutput = true := fun x hx =>
          makeReq_output w creds _ x (by rw [heq2]; exact hx)
        split at he
        · simp only [Run.after, die, List.mem_append, List.mem_singleton] at he
          rcases he with (he | he) | he
          · exact h1 e he
          · exact h2 e he
          · subst he; rfl
        · simp only [printLive, List.mem_append, List.mem_map] at he
          rcases he with (he | he) | ⟨v, _, he⟩
          · exact h1 e he
          · exact h2 e he
          · subst he; rfl
  · split at he
    · rename_i es msg heq
      simp only [Run.after, die, List.mem_append, List.mem_singleton] at he
      rcases he with he | he
      · exact searchChannel_output lib w creds chan e (by rw [heq]; exact he)
      · subst he; rfl
    · rename_i es chanID heq
      have h1 : ∀ x ∈ es, x.isOutput = true := fun x hx =>
        searchChannel_output lib w creds chan x (by rw [heq]; exact hx)
      split at he
      · rename_i es2 msg heq2
        simp only [Run.after, die, List.mem_append, List.mem_singleton] at he
        rcases he with (he | he) | he
        · exact h1 e he
        · exact makeReq_output w creds _ e (by rw [heq2]; exact he)
        · subst he; rfl
      · rename_i es2 respBs heq2
        have h2 : ∀ x ∈ es2, x.isOutput = true := fun x hx =>
          makeReq_output w creds _ x (by rw [heq2]; exact hx)
        split at he
        · simp only [Run.after, die, List.mem_append, List.mem_singleton] at he
          rcases he with (he | he) | he
          · exact h1 e he
          · exact h2 e he
          · subst he; rfl
        · simp only [printVideos, List.mem_append, List.mem_map] at he
          rcases he with (he | he) | ⟨v, _, he⟩
          · exact h1 e he
          · exact h2 e he
          · subst he; rfl

/-! ### The callback server -/

theorem serve_cons_other (w : World) (st : Shared) (r : Request) (rs : List Request)
    (h : r.isCallback = false) : serve w st (r :: rs) = serve w st rs := by
  have h1 : ¬ r.path = "/" ++ oauth2Callback := by simpa [Request.isCallback] using h
  simp [serve, h1]

theorem serve_cons_failed (w : World) (st : Shared) (r : Request) (rs : List Request)
    (h : r.isCallback = true) (e : String)
    (hx : retrieveToken (w.exchange st.exchanges (formValue r "code")) [] = .error e) :
    serve w st (r :: rs) =
      ([Event.exchangeCall (formValue r "code"),
        Event.print ("Exchanging code for token: " ++ e ++ "\n")], none) := by
  have h1 : r.path = "/" ++ oauth2Callback := by simpa [Request.isCallback] using h
  simp [serve, h1, hx]

theorem serve_cons_done (w : World) (st : Shared) (r : Request) (rs : List Request)
    (h : r.isCallback = true) (t : Token)
    (hx : retrieveToken (w.exchange st.exchanges (formValue r "code")) [] = .ok t) :
    serve w st (r :: rs) =
      (Event.exchangeCall (formValue r "code")
        :: (if st.closed then Event.handlerPanic else Event.signal)
        :: (serve w { token := some t, closed := true, exchanges := st.exchanges + 1 } rs).1,
       (serve w { token := some t, closed := true, exchanges := st.exchanges + 1 } rs).2) := by
  have h1 : r.path = "/" ++ oauth2Callback := by simpa [Request.isCallback] using h
  simp [serve, h1, hx]

theorem serve_no_callback (w : World) (st : Shared) (rs : List Request)
    (h : rs.countP Request.isCallback = 0) : serve w st rs = ([], some st) := by
  induction rs with
  | nil => rfl
  | cons r rs ih =>
    have hr : r.isCallback = false := by
      by_contra hc
      simp only [Bool.not_eq_false] at hc
      simp [List.countP_cons, hc] at h
    rw [serve_cons_other w st r rs hr]
    apply ih
    simpa [List.countP_cons, hr] using h

theorem serve_serving (w : World) (rs : List Request) :
    ∀ (st : Shared), ∀ e ∈ (serve w st rs).1, e.isServing = true := by
  induction rs with
  | nil => intro st e he; simp [serve] at he
  | cons r rs ih =>
    intro st e he
    by_cases hr : r.isCallback = true
    · cases hx : retrieveToken (w.exchange st.exchanges (formValue r "code")) [] with
      | error msg =>
        rw [serve_cons_failed w st r rs hr msg hx] at he
        simp at he
        rcases he with he | he <;> subst he <;> rfl
      | ok t =>
        rw [serve_cons_done w st r rs hr t hx] at he
        simp only [List.mem_cons] at he
        rcases he with he | he | he
        · subst he; rfl
        · subst he; split <;> rfl
        · exact ih _ e he
    · simp only [Bool.not_eq_true] at hr
      rw [serve_cons_other w st r rs hr] at he
      exact ih st e he

theorem serve_exchange_le (w : World) (rs : List Request) :
    ∀ (st : Shared),
      (serve w st rs).1.countP Event.isExchange ≤ rs.countP Request.isCallback := by
  induction rs with
  | nil => intro st; simp [serve]
  | cons r rs ih =>
    intro st
    by_cases hr : r.isCallback = true
    · cases hx : retrieveToken (w.exchange st.exchanges (formValue r "code")) [] with
      | error msg =>
        rw [serve_cons_failed w st r rs hr msg hx]
        simp [List.countP_cons, hr, Event.isExchange]
      | ok t =>
        rw [serve_cons_done w st r rs hr t hx]
        have h := ih { token := some t, closed := true, exchanges := st.exchanges + 1 }
        cases st.closed <;> simpa [List.countP_cons, hr, Event.isExchange] using h
    · simp only [Bool.not_eq_true] at hr
      rw [serve_cons_other w st r rs hr]
      simpa [List.countP_cons, hr] using ih st

theorem serve_exchange_one (w : World) (rs : List Request) :
    ∀ (st : Shared), rs.countP Request.isCallback = 1 →
      (serve w st rs).1.countP Event.isExchange = 1 := by
  induction rs with
  | nil => intro st h; simp at h
  | cons r rs ih =>
    intro st h
    by_cases hr : r.isCallback = true
    · have hrs : rs.countP Request.isCallback = 0 := by
        simpa [List.countP_cons, hr] using h
      cases hx : retrieveToken (w.exchange st.exchanges (formValue r "code")) [] with
      | error msg =>
        rw [serve_cons_failed w st r rs hr msg hx]
        simp [List.countP_cons, Event.isExchange]
      | ok t =>
        rw [serve_cons_done w st r rs hr t hx, serve_no_callback w _ rs hrs]
        cases st.closed <;> simp [List.countP_cons, Event.isExchange]
    · simp only [Bool.not_eq_true] at hr
      rw [serve_cons_other w st r rs hr]
      apply ih st
      simpa [List.countP_cons, hr] using h

theorem serve_closed_exchanged (w : World) (rs : List Request) :
    ∀ (st st1 : Shared), st.closed = false → (serve w st rs).2 = some st1 → st1.closed = true →
      ∃ code, Event.exchangeCall code ∈ (serve w st rs).1 := by
  induction rs with
  | nil =>
    intro st st1 hc h h1
    simp [serve] at h
    subst h
    rw [hc] at h1
    cases h1
  | cons r rs ih =>
    intro st st1 hc h h1
    by_cases hr : r.isCallback = true
    · cases hx : retrieveToken (w.exchange st.exchanges (formValue r "code")) [] with
      | error msg =>
        rw [serve_cons_failed w st r rs hr msg hx] at h
        cases h
      | ok t =>
        rw [serve_cons_done w st r rs hr t hx]
        exact ⟨_, List.mem_cons_self _ _⟩
    · simp only [Bool.not_eq_true] at hr
      rw [serve_cons_other w st r rs hr] at h ⊢
      exact ih st st1 hc h h1

theorem serve_closed_signal (w : World) (rs : List Request) :
    ∀ (st st1 : Shared), st.closed = false → (serve w st rs).2 = some st1 → st1.closed = true →
      Event.signal ∈ (serve w st rs).1 := by
  induction rs with
  | nil =>
    intro st st1 hc h h1
    simp [serve] at h
    subst h
    rw [hc] at h1
    cases h1
  | cons r rs ih =>
    intro st st1 hc h h1
    by_cases hr : r.isCallback = true
    · cases hx : retrieveToken (w.exchange st.exchanges (formValue r "code")) [] with
      | error msg =>
        rw [serve_cons_failed w st r rs hr msg hx] at h
        cases h
      | ok t =>
        rw [serve_cons_done w st r rs hr t hx]
        simp [hc]
    · simp only [Bool.not_eq_true] at hr
      rw [serve_cons_other w st r rs hr] at h ⊢
      exact ih st st1 hc h h1

theorem serve_died (w : World) (rs : List Request) :
    ∀ (st : Shared), (serve w st rs).2 = none →
      ∃ pre code msg, (serve w st rs).1 =
        pre ++ [Event.exchangeCall code, Event.print ("Exchanging code for token: " ++ msg ++ "\n")] := by
  induction rs with
  | nil => intro st h; simp [serve] at h
  | cons r rs ih =>
    intro st h
    by_cases hr : r.isCallback = true
    · cases hx : retrieveToken (w.exchange st.exchanges (formValue r "code")) [] with
      | error msg =>
        rw [serve_cons_failed w st r rs hr msg hx]
        exact ⟨[], _, msg, rfl⟩
      | ok t =>
        rw [serve_cons_done w st r rs hr t hx] at h ⊢
        obtain ⟨pre, code, msg, hpre⟩ := ih _ h
        exact ⟨Event.exchangeCall (formValue r "code")
          :: (if st.closed then Event.handlerPanic else Event.signal) :: pre, code, msg,
          by simp [hpre]⟩
    · simp only [Bool.not_eq_true] at hr
      rw [serve_cons_other w st r rs hr] at h ⊢
      exact ih st h

/-! ### Counting exchanges through the stages of `main` -/

theorem countP_exchange_of_output (l : List Event) (h : ∀ e ∈ l, e.isOutput = true) :
    l.countP Event.isExchange = 0 := by
  rw [List.countP_eq_zero]
  intro e he
  have := h e he
  cases e <;> simp_all [Event.isOutput, Event.isExchange]

theorem tokenSource_refresh_only (w : World) (token : Option Token) :
    ∀ e ∈ (tokenSource_Token w token).1, e.isRefresh = true := by
  intro e he
  unfold tokenSource_Token tokenRefresher_Token at he
  split at he
  · simp at he
  · split at he
    · simp at he
    · split at he
      · simp at he
      · simp at he; subst he; rfl

theorem countP_exchange_of_refresh (l : List Event) (h : ∀ e ∈ l, e.isRefresh = true) :
    l.countP Event.isExchange = 0 := by
  rw [List.countP_eq_zero]
  intro e he
  have := h e he
  cases e <;> simp_all [Event.isRefresh, Event.isExchange]

theorem withDeferredClose_exchange (listening : Bool) (r : Run) :
    (withDeferredClose listening r).events.countP Event.isExchange
      = r.events.countP Event.isExchange := by
  unfold withDeferredClose
  split
  · split <;> simp [List.countP_append, List.countP_cons, Event.isExchange]
  · rfl

theorem afterStore_exchange_le (lib : Lib) (w : World) (creds : ClientCreds) (chan : String)
    (listening : Bool) (st : Shared) :
    (afterStore lib w creds chan listening st).events.countP Event.isExchange
      ≤ (if listening then w.reqsAfterStore else []).countP Request.isCallback := by
  unfold afterStore
  have h := serve_exchange_le w (if listening then w.reqsAfterStore else []) st
  split
  · rename_i es heq
    rw [heq] at h
    exact h
  · rename_i es st1 heq
    rw [heq] at h
    simp only [Run.after, List.countP_append, withDeferredClose_exchange,
      countP_exchange_of_output _ (queries_output lib w creds chan)]
    exact h

theorem store_exchange_le (lib : Lib) (w : World) (creds : ClientCreds) (chan tokenPath : String)
    (listening : Bool) (st : Shared) :
    (store lib w creds chan tokenPath listening st).events.countP Event.isExchange
      ≤ (if listening then w.reqsAfterStore else []).countP Request.isCallback := by
  unfold store
  split
  · simp [die, Event.isExchange]
  · split
    · simp [Run.after, die, Event.isExchange]
    · simpa [Run.after, List.countP_cons, Event.isExchange] using
        afterStore_exchange_le lib w creds chan listening st

theorem authenticated_exchange_le (lib : Lib) (w : World) (creds : ClientCreds)
    (chan tokenPath : String) (listening : Bool) (st : Shared) :
    (authenticated lib w creds chan tokenPath listening st).events.countP Event.isExchange
      ≤ (if listening then w.reqsBeforeStore else []).countP Request.isCallback
        + (if listening then w.reqsAfterStore else []).countP Request.isCallback := by
  unfold authenticated
  split
  · rename_i es msg heq
    have h0 : es.countP Event.isExchange = 0 :=
      countP_exchange_of_refresh es (fun e he =>
        tokenSource_refresh_only w st.token e (by rw [heq]; exact he))
    simp [Run.after, die, List.countP_append, h0, Event.isExchange]
  · rename_i es t heq
    have h0 : es.countP Event.isExchange = 0 :=
      countP_exchange_of_refresh es (fun e he =>
        tokenSource_refresh_only w st.token e (by rw [heq]; exact he))
    have h := serve_exchange_le w (if listening then w.reqsBeforeStore else [])
      { st with token := some t }
    split
    · rename_i es1 heq1
      rw [heq1] at h
      simp only [Run.after, List.countP_append, h0, Nat.zero_add]
      exact Nat.le_trans h (Nat.le_add_right _ _)
    · rename_i es1 st1 heq1
      rw [heq1] at h
      simp only [Run.after, List.countP_append, h0, Nat.zero_add]
      exact Nat.add_le_add h (store_exchange_le lib w creds chan tokenPath listening st1)

/-! ### Events after the token was loaded -/

theorem late_of_output (e : Event) (h : e.isOutput = true) : e.isLate = true := by
  cases e <;> simp_all [Event.isOutput, Event.isLate]

theorem late_of_serving (e : Event) (h : e.isServing = true) : e.isLate = true := by
  cases e <;> simp_all [Event.isServing, Event.isLate]

theorem late_of_refresh (e : Event) (h : e.isRefresh = true) : e.isLate = true := by
  cases e <;> simp_all [Event.isRefresh, Event.isLate]

theorem withDeferredClose_late (listening : Bool) (r : Run)
    (h : ∀ e ∈ r.events, e.isLate = true) :
    ∀ e ∈ (withDeferredClose listening r).events, e.isLate = true := by
  intro e he
  unfold withDeferredClose at he
  split at he
  · split at he
    · simp only [List.mem_append, List.mem_singleton] at he
      rcases he with he | he
      · exact h e he
      · subst he; rfl
    · simp only [List.mem_append, List.mem_singleton] at he
      rcases he with he | he
      · exact h e he
      · subst he; rfl
    · exact h e he
  · exact h e he

theorem afterStore_late (lib : Lib) (w : World) (creds : ClientCreds) (chan : String)
    (listening : Bool) (st : Shared) :
    ∀ e ∈ (afterStore lib w creds chan listening st).events, e.isLate = true := by
  intro e he
  unfold afterStore at he
  have h := serve_serving w (if listening then w.reqsAfterStore else []) st
  split at he
  · rename_i es heq
    rw [heq] at h
    exact late_of_serving e (h e he)
  · rename_i es st1 heq
    rw [heq] at h
    simp only [Run.after, List.mem_append] at he
    rcases he with he | he
    · exact late_of_serving e (h e he)
    · exact withDeferredClose_late listening _
        (fun x hx => late_of_output x (queries_output lib w creds chan x hx)) e he

theorem store_late (lib : Lib) (w : World) (creds : ClientCreds) (chan tokenPath : String)
    (listening : Bool) (st : Shared) :
    ∀ e ∈ (store lib w creds chan tokenPath listening st).events, e.isLate = true := by
  intro e he
  unfold store at he
  split at he
  · simp [die] at he; subst he; rfl
  · split at he
    · simp [Run.after, die] at he
      rcases he with he | he <;> subst he <;> rfl
    · simp only [Run.after, List.singleton_append, List.mem_cons] at he
      rcases he with he | he
      · subst he; rfl
      · exact afterStore_late lib w creds chan listening st e he

theorem authenticated_late (lib : Lib) (w : World) (creds : ClientCreds)
    (chan tokenPath : String) (listening : Bool) (st : Shared) :
    ∀ e ∈ (authenticated lib w creds chan tokenPath listening st).events, e.isLate = true := by
  intro e he
  unfold authenticated at he
  split at he
  · rename_i es msg heq
    simp only [Run.after, die, List.mem_append, List.mem_singleton] at he
    rcases he with he | he
    · exact late_of_refresh e (tokenSource_refresh_only w st.token e (by rw [heq]; exact he))
    · subst he; rfl
  · rename_i es t heq
    have h := serve_serving w (if listening then w.reqsBeforeStore else [])
      { st with token := some t }
    simp only [Run.after, List.mem_append] at he
    rcases he with he | he
    · exact late_of_refresh e (tokenSource_refresh_only w st.token e (by rw [heq]; exact he))
    · split at he
      · rename_i es1 heq1
        rw [heq1] at h
        exact late_of_serving e (h e he)
      · rename_i es1 st1 heq1
        rw [heq1] at h
        simp only [List.mem_append] at he
        rcases he with he | he
        · exact late_of_serving e (h e he)
        · exact store_late lib w creds chan tokenPath listening st1 e he

theorem prefix_of_split {A B pre post : List Event} {x : Event}
    (h : A ++ B = pre ++ x :: post) (hx : x ∉ A) : ∃ k, pre = A ++ k := by
  rcases List.append_eq_append_iff.mp h with ⟨a, ha, _⟩ | ⟨c, hc, hc2⟩
  · exact ⟨a, ha⟩
  · cases c with
    | nil => exact ⟨[], by simp [hc]⟩
    | cons y c =>
      simp only [List.cons_append, List.cons.injEq] at hc2
      exact absurd (by rw [hc, hc2.1]; simp) hx

/-! ### The interactive flow -/

theorem loadToken_absent (lib : Lib) (w : World) (creds : ClientCreds) (chan tokenPath m : String)
    (habs : w.readFile tokenPath = .notExist m) :
    loadToken lib w creds chan tokenPath =
      Run.after
        [Event.readFile tokenPath,
         Event.listen ("localhost:" ++ toString serverPort),
         Event.print ("Open your browser to "
           ++ lib.authCodeURL creds.ID
                ("http://localhost:" ++ toString serverPort ++ "/" ++ oauth2Callback)
                ["user:read:follows"] ++ "\n")]
        (match w.listenErr with
          | some e => die ("OAuth2 server exit: " ++ e ++ "\n")
          | none =>
            match serve w { token := none, closed := false, exchanges := 0 } w.reqsUntilResume with
            | (es, none) => { events := es, outcome := Outcome.exit 1 }
            | (es, some st) =>
              if st.closed then Run.after es (authenticated lib w creds chan tokenPath true st)
              else { events := es, outcome := Outcome.blocked }) := by
  simp [loadToken, habs, interactive, Run.after]

theorem loadToken_present_late (lib : Lib) (w : World) (creds : ClientCreds)
    (chan tokenPath : String) (h : ∀ m, w.readFile tokenPath ≠ .notExist m) :
    ∃ rest, (loadToken lib w creds chan tokenPath).events = Event.readFile tokenPath :: rest
      ∧ (∀ e ∈ rest, e.isLate = true) ∧ rest.countP Event.isExchange = 0 := by
  unfold loadToken
  cases hr : w.readFile tokenPath with
  | notExist m => exact absurd hr (h m)
  | failed m =>
    simp only [Run.after, die, List.singleton_append]
    refine ⟨_, rfl, ?_, ?_⟩
    · intro e he; simp at he; subst he; rfl
    · simp [Event.isExchange]
  | ok tokenBs =>
    simp only [Run.after, List.singleton_append]
    cases hp : unmarshalToken lib tokenBs with
    | error m =>
      refine ⟨_, rfl, ?_, ?_⟩
      · intro e he; simp [die] at he; subst he; rfl
      · simp [die, Event.isExchange]
    | ok t =>
      refine ⟨_, rfl, authenticated_late lib w creds chan tokenPath false _, ?_⟩
      simpa using authenticated_exchange_le lib w creds chan tokenPath false
        { token := some t, closed := false, exchanges := 0 }

/-- C1 (amended): in a run that reaches credential loading, the listener is started
exactly when reading the token file fails with "file does not exist", and an exchange
call occurs only then.  When the file is absent the run starts the listener and prints
the authorization URL, every refresh call is preceded by an exchange call, and when the
listener binds and exactly one callback request is served during the run (before `main`
resumes) exactly one exchange call is made. -/
theorem interactive_flow_iff_token_absent (lib : Lib) (w : World) (home : String)
    (creds : ClientCreds) (h : Reached lib w home creds) :
    ((∃ a, Event.listen a ∈ (main lib w).events)
        ↔ ∃ m, w.readFile (lib.pathJoin home tokenFileName) = .notExist m)
    ∧ ((∃ c, Event.exchangeCall c ∈ (main lib w).events)
        → ∃ m, w.readFile (lib.pathJoin home tokenFileName) = .notExist m)
    ∧ ((∃ m, w.readFile (lib.pathJoin home tokenFileName) = .notExist m) →
        (∃ rest, (main lib w).events =
          [Event.readFile (lib.pathJoin home credsFileName),
           Event.readFile (lib.pathJoin home tokenFileName),
           Event.listen ("localhost:" ++ toString serverPort),
           Event.print ("Open your browser to "
             ++ lib.authCodeURL creds.ID
                  ("http://localhost:" ++ toString serverPort ++ "/" ++ oauth2Callback)
                  ["user:read:follows"] ++ "\n")] ++ rest)
        ∧ (∀ pre rt post, (main lib w).events = pre ++ Event.refreshCall rt :: post →
            ∃ c, Event.exchangeCall c ∈ pre)
        ∧ (w.listenErr = none → w.reqsUntilResume.countP Request.isCallback = 1 →
            w.reqsBeforeStore.countP Request.isCallback = 0 →
            w.reqsAfterStore.countP Request.isCallback = 0 →
            (main lib w).events.countP Event.isExchange = 1)) := by
  rw [main_reached lib w home creds h]
  by_cases habs : ∃ m, w.readFile (lib.pathJoin home tokenFileName) = .notExist m
  · obtain ⟨m, hm⟩ := habs
    rw [loadToken_absent lib w creds _ _ m hm]
    refine ⟨⟨fun _ => ⟨m, hm⟩, fun _ => ⟨"localhost:" ++ toString serverPort, by simp [Run.after]⟩⟩,
      fun _ => ⟨m, hm⟩, fun _ => ?_⟩
    refine ⟨⟨_, by simp only [Run.after, List.singleton_append, List.cons_append, List.nil_append]; rfl⟩,
      ?_, ?_⟩
    · -- every refresh call comes after an exchange call
      intro pre rt post hsplit
      cases hl : w.listenErr with
      | some e =>
        exfalso
        have : Event.refreshCall rt ∈ pre ++ Event.refreshCall rt :: post := by simp
        rw [← hsplit] at this
        simp [hl, Run.after, die] at this
      | none =>
        simp only [hl] at hsplit
        have hserv := serve_serving w w.reqsUntilResume
          { token := none, closed := false, exchanges := 0 }
        have hex := serve_closed_exchanged w w.reqsUntilResume
          { token := none, closed := false, exchanges := 0 }
        generalize hsv : serve w { token := none, closed := false, exchanges := 0 }
          w.reqsUntilResume = sv at hsplit hserv hex
        obtain ⟨es, ost⟩ := sv
        have hnot : ∀ l : List Event, (∀ e ∈ l, e.isServing = true) →
            Event.refreshCall rt ∉ l := fun l hl hmem => by
          have := hl _ hmem
          simp [Event.isServing] at this
        cases ost with
        | none =>
          exfalso
          have : Event.refreshCall rt ∈ pre ++ Event.refreshCall rt :: post := by simp
          rw [← hsplit] at this
          simp [Run.after] at this
          exact hnot es hserv this
        | some st =>
          by_cases hc : st.closed = true
          · simp only [hc, if_true, Run.after] at hsplit
            obtain ⟨c, hcmem⟩ := hex st rfl rfl hc
            have hsplit2 : ([Event.readFile (lib.pathJoin home credsFileName),
                Event.readFile (lib.pathJoin home tokenFileName),
                Event.listen ("localhost:" ++ toString serverPort),
                Event.print ("Open your browser to "
                  ++ lib.authCodeURL creds.ID
                    ("http://localhost:" ++ toString serverPort ++ "/" ++ oauth2Callback)
                    ["user:read:follows"] ++ "\n")] ++ es)
                ++ (authenticated lib w creds (w.chan lib) (lib.pathJoin home tokenFileName)
                      true st).events = pre ++ Event.refreshCall rt :: post := by
              rw [← hsplit]; simp
            obtain ⟨k, hk⟩ := prefix_of_split hsplit2 (by
              simp only [List.mem_append, List.mem_cons, List.mem_singleton, not_or]
              refine ⟨?_, hnot es hserv⟩
              simp)
            exact ⟨c, by rw [hk]; simp [hcmem]⟩
          · exfalso
            have : Event.refreshCall rt ∈ pre ++ Event.refreshCall rt :: post := by simp
            rw [← hsplit] at this
            simp [hc, Run.after] at this
            exact hnot es hserv this
    · -- exactly one exchange call
      intro hl h1 h2 h3
      simp only [hl]
      have hone := serve_exchange_one w w.reqsUntilResume
        { token := none, closed := false, exchanges := 0 } h1
      generalize hsv : serve w { token := none, closed := false, exchanges := 0 }
        w.reqsUntilResume = sv at hone
      obtain ⟨es, ost⟩ := sv
      simp only at hone
      cases ost with
      | none => simp [Run.after, List.countP_cons, List.countP_append, Event.isExchange, hone]
      | some st =>
        by_cases hc : st.closed = true
        · have hle := authenticated_exchange_le lib w creds (w.chan lib)
            (lib.pathJoin home tokenFileName) true st
          simp only [if_true, h2, h3, Nat.add_zero, Nat.le_zero] at hle
          simp [hc, Run.after, List.countP_cons, List.countP_append, Event.isExchange, hone, hle]
        · simp [hc, Run.after, List.countP_cons, List.countP_append, Event.isExchange, hone]
  · have hne : ∀ m, w.readFile (lib.pathJoin home tokenFileName) ≠ .notExist m :=
      fun m hm => habs ⟨m, hm⟩
    obtain ⟨rest, hrest, hlate, hcount⟩ :=
      loadToken_present_late lib w creds (w.chan lib) (lib.pathJoin home tokenFileName) hne
    refine ⟨⟨fun ⟨a, ha⟩ => ?_, fun hm => absurd hm habs⟩, fun ⟨c, hc⟩ => ?_,
      fun hm => absurd hm habs⟩
    · exfalso
      simp only [Run.after, hrest, List.singleton_append, List.mem_cons] at ha
      rcases ha with ha | ha | ha
      · cases ha
      · cases ha
      · have := hlate _ ha
        simp [Event.isLate] at this
    · exfalso
      simp only [Run.after, hrest, List.singleton_append, List.mem_cons] at hc
      rcases hc with hc | hc | hc
      · cases hc
      · cases hc
      · rw [List.countP_eq_zero] at hcount
        have := hcount _ hc
        simp [Event.isExchange] at this

theorem interactive_flow_iff_token_absent_witness :
    Reached refLib firstRun "/home/u" ⟨"cid", "sec"⟩
      ∧ (main refLib firstRun).events.countP Event.isExchange = 1 :=
  ⟨⟨Or.inr (by decide), rfl, _, rfl, rfl⟩,
   (interactive_flow_iff_token_absent refLib firstRun "/home/u" ⟨"cid", "sec"⟩
      ⟨Or.inr (by decide), rfl, _, rfl, rfl⟩).2.2 ⟨_, rfl⟩ |>.2.2 rfl (by decide) (by decide)
      (by decide)⟩

/-- C1 (as stated) fails: with the token file absent and port 9001 taken, the run
reaches credential loading, starts the interactive flow and ends without any exchange
call. -/
theorem absent_token_without_exchange :
    Reached refLib portBusy "/home/u" ⟨"cid", "sec"⟩
      ∧ portBusy.readFile (refLib.pathJoin "/home/u" tokenFileName)
          = .notExist "no such file or directory"
      ∧ (main refLib portBusy).events.countP Event.isExchange = 0
      ∧ (main refLib portBusy).outcome = Outcome.exit 1 :=
  ⟨⟨Or.inr (by decide), rfl, _, rfl, rfl⟩, by decide, by decide, by decide⟩

/-! ### The cached token -/

theorem store_cached_events (lib : Lib) (w : World) (creds : ClientCreds)
    (chan tokenPath : String) (st : Shared) (out : Bytes)
    (hm : marshalTokenPtr lib st.token = .ok out) :
    ∃ rest, (store lib w creds chan tokenPath false st).events
        = Event.writeFile tokenPath out 0o600 :: rest
      ∧ ∀ e ∈ rest, e.isOutput = true := by
  unfold store
  simp only [hm, Run.after, List.singleton_append]
  refine ⟨_, rfl, ?_⟩
  intro e he
  split at he
  · simp [die] at he; subst he; rfl
  · unfold afterStore at he
    simp only [Bool.false_eq_true, if_false, serve, Run.after, List.nil_append,
      withDeferredClose] at he
    exact queries_output lib w creds chan e he

theorem countP_refresh_of_output (l : List Event) (h : ∀ e ∈ l, e.isOutput = true) :
    l.countP Event.isRefresh = 0 := by
  rw [List.countP_eq_zero]
  intro e he
  have := h e he
  cases e <;> simp_all [Event.isOutput, Event.isRefresh]

theorem authenticated_cached (lib : Lib) (w : World) (creds : ClientCreds)
    (chan tokenPath : String) (st : Shared) :
    authenticated lib w creds chan tokenPath false st =
      match tokenSource_Token w st.token with
      | (es, .error e) => Run.after es (die ("Refreshing token: " ++ e ++ "\n"))
      | (es, .ok t) =>
        Run.after es (store lib w creds chan tokenPath false { st with token := some t }) := by
  unfold authenticated
  split <;> simp [serve, Run.after]

theorem tokenSource_refresh_count (w : World) (t : Token) :
    (tokenSource_Token w (some t)).1.countP Event.isRefresh
      = if Token.Valid w.now (some t) = true ∨ t.RefreshToken = [] then 0 else 1 := by
  unfold tokenSource_Token tokenRefresher_Token
  by_cases hv : Token.Valid w.now (some t) = true
  · simp [hv]
  · by_cases hr : t.RefreshToken = []
    · simp [hv, hr]
    · simp [hv, hr, Event.isRefresh]

/-- C2 (amended): for a cached credential `t` read and parsed from the token file, the
run starts no listener and makes no exchange; `tokenSource.Token()` is evaluated once
and reaches the token endpoint exactly once when `t` is not valid and carries a refresh
token, and not at all when `t` is still valid; when it succeeds, the credential it
returns is written to the token file with mode 0600 before any query is made. -/
theorem cached_token_run (lib : Lib) (w : World) (home : String) (creds : ClientCreds)
    (tokenBs : Bytes) (t : Token) (h : Reached lib w home creds)
    (hread : w.readFile (lib.pathJoin home tokenFileName) = .ok tokenBs)
    (hparse : unmarshalToken lib tokenBs = .ok t) :
    (∀ e ∈ (main lib w).events, e.isListen = false ∧ e.isExchange = false)
    ∧ (main lib w).events.countP Event.isRefresh
        = (if Token.Valid w.now (some t) = true ∨ t.RefreshToken = [] then 0 else 1)
    ∧ (∀ t1 out, (tokenSource_Token w (some t)).2 = .ok t1 → marshalToken lib t1 = .ok out →
        ∃ rest, (main lib w).events =
            [Event.readFile (lib.pathJoin home credsFileName),
             Event.readFile (lib.pathJoin home tokenFileName)]
            ++ (tokenSource_Token w (some t)).1
            ++ [Event.writeFile (lib.pathJoin home tokenFileName) out 0o600] ++ rest
          ∧ ∀ e ∈ rest, e.isOutput = true) := by
  rw [main_reached lib w home creds h]
  have hne : ∀ m, w.readFile (lib.pathJoin home tokenFileName) ≠ .notExist m := by
    intro m hm; rw [hread] at hm; cases hm
  refine ⟨?_, ?_, ?_⟩
  · obtain ⟨rest, hrest, hlate, hcount⟩ :=
      loadToken_present_late lib w creds (w.chan lib) (lib.pathJoin home tokenFileName) hne
    intro e he
    simp only [Run.after, hrest, List.singleton_append, List.mem_cons] at he
    rcases he with he | he | he
    · subst he; exact ⟨rfl, rfl⟩
    · subst he; exact ⟨rfl, rfl⟩
    · refine ⟨?_, ?_⟩
      · have := hlate e he
        cases e <;> simp_all [Event.isLate, Event.isListen]
      · rw [List.countP_eq_zero] at hcount
        simpa using hcount e he
  · have hl : loadToken lib w creds (w.chan lib) (lib.pathJoin home tokenFileName) =
        Run.after [Event.readFile (lib.pathJoin home tokenFileName)]
          (authenticated lib w creds (w.chan lib) (lib.pathJoin home tokenFileName) false
            { token := some t, closed := false, exchanges := 0 }) := by
      simp [loadToken, hread, hparse]
    rw [hl, authenticated_cached, ← tokenSource_refresh_count]
    generalize tokenSource_Token w (some t) = ts
    obtain ⟨es, res⟩ := ts
    cases res with
    | error e => simp [Run.after, die, List.countP_cons, List.countP_append, Event.isRefresh]
    | ok t1 =>
      simp only [Run.after, List.countP_append, List.countP_cons, List.countP_nil,
        Event.isRefresh]
      cases hm : marshalTokenPtr lib (some t1) with
      | error e => simp [store, hm, die, Event.isRefresh]
      | ok out =>
        obtain ⟨rest, hrest, hout⟩ := store_cached_events lib w creds (w.chan lib)
          (lib.pathJoin home tokenFileName)
          { token := some t1, closed := false, exchanges := 0 } out hm
        rw [hrest]
        simp [List.countP_cons, Event.isRefresh, countP_refresh_of_output rest hout]
  · intro t1 out hts hm
    have hl : loadToken lib w creds (w.chan lib) (lib.pathJoin home tokenFileName) =
        Run.after [Event.readFile (lib.pathJoin home tokenFileName)]
          (authenticated lib w creds (w.chan lib) (lib.pathJoin home tokenFileName) false
            { token := some t, closed := false, exchanges := 0 }) := by
      simp [loadToken, hread, hparse]
    rw [hl, authenticated_cached]
    revert hts
    generalize tokenSource_Token w (some t) = ts
    obtain ⟨es, res⟩ := ts
    intro hts
    simp only at hts
    subst hts
    obtain ⟨rest, hrest, hout⟩ := store_cached_events lib w creds (w.chan lib)
      (lib.pathJoin home tokenFileName)
      { token := some t1, closed := false, exchanges := 0 } out hm
    exact ⟨rest, by simp [Run.after, hrest], hout⟩

set_option maxRecDepth 100000 in
theorem cached_token_run_witness :
    Reached refLib cachedExpired "/home/u" ⟨"cid", "sec"⟩
      ∧ (main refLib cachedExpired).events.countP Event.isRefresh = 1 :=
  ⟨⟨Or.inr (by decide), rfl, _, rfl, rfl⟩,
   (cached_token_run refLib cachedExpired "/home/u" ⟨"cid", "sec"⟩
      (bytes ("\x7b\"access_token\":\"at1\",\"token_type\":\"bearer\","
          ++ "\"refresh_token\":\"rt1\",\"expiry\":\"2022-06-01T00:00:00Z\"\x7d"))
      ⟨bytes "at1", bytes "bearer", bytes "rt1", june2022⟩
      ⟨Or.inr (by decide), rfl, _, rfl, rfl⟩ rfl rfl).2.1⟩

set_option maxRecDepth 100000 in
/-- C2 (as stated) fails: the cached token of `cachedValid` is read and parsed and is
not expired, and the run makes no refresh call at all before it writes the token file
and queries the API. -/
theorem valid_cached_token_not_refreshed :
    Reached refLib cachedValid "/home/u" ⟨"cid", "sec"⟩
      ∧ cachedValid.readFile "/home/u/.twitch-search.json"
          = .ok (bytes ("\x7b\"access_token\":\"at1\",\"token_type\":\"bearer\","
              ++ "\"refresh_token\":\"rt1\",\"expiry\":\"2022-06-01T00:00:00Z\"\x7d"))
      ∧ unmarshalToken refLib (bytes ("\x7b\"access_token\":\"at1\",\"token_type\":\"bearer\","
              ++ "\"refresh_token\":\"rt1\",\"expiry\":\"2022-06-01T00:00:00Z\"\x7d"))
          = .ok ⟨bytes "at1", bytes "bearer", bytes "rt1", june2022⟩
      ∧ Token.expired cachedValid.now ⟨bytes "at1", bytes "bearer", bytes "rt1", june2022⟩ = false
      ∧ (main refLib cachedValid).events.countP Event.isRefresh = 0
      ∧ (main refLib cachedValid).events.countP Event.isWrite = 1
      ∧ (main refLib cachedValid).outcome = Outcome.returned :=
  ⟨⟨Or.inr (by decide), rfl, _, rfl, rfl⟩, rfl, rfl, by decide, by decide, by decide, by decide⟩

/-! ### The client identity -/

theorem decodeString_wrong_kind (lib : Lib) (old : String) (v : JSON)
    (h : v.isStringOrNull = false) : decodeString lib old v = .error (lib.typeError v) := by
  cases v <;> simp_all [decodeString, JSON.isStringOrNull]

theorem credsMember_wrong_kind (lib : Lib) (c : ClientCreds) (kv : String × JSON)
    (hk : matchField lib ["id", "secret"] kv.1 ≠ none) (hv : kv.2.isStringOrNull = false) :
    credsMember lib c kv = .error (lib.typeError kv.2) := by
  unfold credsMember
  cases hf : matchField lib ["id", "secret"] kv.1 with
  | none => exact absurd hf hk
  | some f =>
    simp only
    split <;> simp [decodeString_wrong_kind lib _ kv.2 hv, Except.map]

theorem foldlM_creds_error (lib : Lib) (members : List (String × JSON)) :
    ∀ (c : ClientCreds),
      (∃ kv ∈ members, matchField lib ["id", "secret"] kv.1 ≠ none ∧ kv.2.isStringOrNull = false) →
      ∃ e, members.foldlM (credsMember lib) c = .error e := by
  induction members with
  | nil => intro c ⟨kv, hkv, _⟩; cases hkv
  | cons m rest ih =>
    intro c ⟨kv, hkv, hk, hv⟩
    simp only [List.foldlM_cons]
    cases hm : credsMember lib c m with
    | error e => exact ⟨e, rfl⟩
    | ok c1 =>
      rcases List.mem_cons.mp hkv with heq | hmem
      · subst heq
        rw [credsMember_wrong_kind lib c kv hk hv] at hm
        cases hm
      · exact ih c1 ⟨kv, hmem, hk, hv⟩

theorem unmarshalCreds_rejected (lib : Lib) (credsBs : Bytes) (h : rejectedConfig lib credsBs) :
    ∃ e, unmarshalCreds lib credsBs = .error e := by
  unfold unmarshalCreds
  rcases h with ⟨e, he⟩ | ⟨v, hv, hkind⟩ | ⟨members, hm, hbad⟩
  · exact ⟨e, by simp [he]⟩
  · rw [hv]
    cases v <;> simp_all [JSON.isObjectOrNull]
  · rw [hm]
    obtain ⟨e, he⟩ := foldlM_creds_error lib members ⟨"", ""⟩ hbad
    exact ⟨e, by simp [he, Except.map]⟩

/-- C7 (amended): when the client-identity file is read and its content is rejected by
`json.Unmarshal` (text that is not JSON, a document that is neither an object nor
`null`, or an object whose `id` or `secret` member is neither a string nor `null`), the
run consists of the read and of one message naming the parsing of the client
credentials and the quoted path, and ends with exit status 1 before the OAuth2
configuration is built. -/
theorem malformed_config_is_reported (lib : Lib) (w : World) (home : String) (credsBs : Bytes)
    (hflags : w.flagLive = true ∨ w.flagChan ≠ "")
    (hhome : w.homeDir = .ok home)
    (hread : w.readFile (lib.pathJoin home credsFileName) = .ok credsBs)
    (hbad : rejectedConfig lib credsBs) :
    ∃ e, unmarshalCreds lib credsBs = .error e ∧
      main lib w =
        { events :=
            [Event.readFile (lib.pathJoin home credsFileName),
             Event.print ("Parsing client credentials from "
               ++ lib.quote (lib.pathJoin home credsFileName) ++ ": " ++ e ++ "\n")],
          outcome := Outcome.exit 1 } := by
  obtain ⟨e, he⟩ := unmarshalCreds_rejected lib credsBs hbad
  refine ⟨e, he, ?_⟩
  have h1 : (!w.flagLive && decide (w.flagChan = "")) = false := by
    rcases hflags with h | h <;> simp [h]
  simp [main, h1, hhome, loadCreds, hread, he, die, Run.after]

theorem malformed_config_is_reported_witness :
    rejectedConfig refLib (bytes "[1,2]")
      ∧ ∃ e, unmarshalCreds refLib (bytes "[1,2]") = .error e ∧
          main refLib arrayConfig =
            { events :=
                [Event.readFile (refLib.pathJoin "/home/u" credsFileName),
                 Event.print ("Parsing client credentials from "
                   ++ refLib.quote (refLib.pathJoin "/home/u" credsFileName) ++ ": " ++ e ++ "\n")],
              outcome := Outcome.exit 1 } :=
  ⟨Or.inr (Or.inl ⟨JSON.arr [JSON.num "1", JSON.num "2"], rfl, rfl⟩),
   malformed_config_is_reported refLib arrayConfig "/home/u" (bytes "[1,2]")
     (Or.inr (by decide)) rfl rfl
     (Or.inr (Or.inl ⟨JSON.arr [JSON.num "1", JSON.num "2"], rfl, rfl⟩))⟩

set_option maxRecDepth 100000 in
/-- C7 (as stated) fails: a client-identity file holding `{}` is accepted, the run builds
the OAuth2 configuration with an empty client id, starts the interactive flow and fails
only when the provider rejects the exchange; a file holding `null` is accepted by the
parsing step and the run then panics on the nil `clientCreds` without any message naming
the file. -/
theorem config_without_fields_is_accepted :
    emptyObjectConfig.readFile "/home/u/.twitch-search-client.json" = .ok (bytes "\x7b\x7d")
      ∧ unmarshalCreds refLib (bytes "\x7b\x7d") = .ok (some ⟨"", ""⟩)
      ∧ main refLib emptyObjectConfig =
          { events :=
              [Event.readFile "/home/u/.twitch-search-client.json",
               Event.readFile "/home/u/.twitch-search.json",
               Event.listen "localhost:9001",
               Event.print ("Open your browser to https://id.twitch.tv/oauth2/authorize?client_id="
                 ++ "&redirect_uri=http%3A%2F%2Flocalhost%3A9001%2Fcallback"
                 ++ "&response_type=code&scope=user%3Aread%3Afollows\n"),
               Event.exchangeCall "abc",
               Event.print
                 "Exchanging code for token: oauth2: cannot fetch token: 400 Bad Request\n"],
            outcome := Outcome.exit 1 }
      ∧ nullConfig.readFile "/home/u/.twitch-search-client.json" = .ok (bytes "null")
      ∧ unmarshalCreds refLib (bytes "null") = .ok none
      ∧ main refLib nullConfig =
          { events := [Event.readFile "/home/u/.twitch-search-client.json"],
            outcome := Outcome.panic
              "runtime error: invalid memory address or nil pointer dereference" } :=
  ⟨rfl, rfl, by decide, rfl, rfl, by decide⟩

/-! ### A callback without a code -/

theorem serve_skip (w : World) (st : Shared) (pre rs : List Request)
    (h : pre.countP Request.isCallback = 0) : serve w st (pre ++ rs) = serve w st rs := by
  induction pre with
  | nil => rfl
  | cons r pre ih =>
    have hr : r.isCallback = false := by
      by_contra hc
      simp only [Bool.not_eq_false] at hc
      simp [List.countP_cons, hc] at h
    rw [List.cons_append, serve_cons_other w st r _ hr]
    apply ih
    simpa [List.countP_cons, hr] using h

theorem formValue_absent (r : Request) (key : String) (h : ∀ kv ∈ r.form, kv.1 ≠ key) :
    formValue r key = "" := by
  unfold formValue
  have : r.form.find? (fun kv => decide (kv.1 = key)) = none := by
    rw [List.find?_eq_none]
    intro kv hkv
    simpa using h kv hkv
  rw [this]

/-- C6 (amended): when the token file is absent, the listener binds and the first
callback request carries no `code` (for instance only `error=access_denied`), the
handler submits the empty code to the token endpoint; when the endpoint rejects it the
run prints the exchange failure and exits with status 1 without writing any file. -/
theorem callback_without_code (lib : Lib) (w : World) (home : String) (creds : ClientCreds)
    (m : String) (r : Request) (pre post : List Request)
    (h : Reached lib w home creds)
    (habs : w.readFile (lib.pathJoin home tokenFileName) = .notExist m)
    (hl : w.listenErr = none)
    (hreqs : w.reqsUntilResume = pre ++ r :: post)
    (hpre : pre.countP Request.isCallback = 0)
    (hr : r.isCallback = true)
    (hcode : ∀ kv ∈ r.form, kv.1 ≠ "code") :
    Event.exchangeCall "" ∈ (main lib w).events
    ∧ ∀ e, retrieveToken (w.exchange 0 "") [] = .error e →
        main lib w =
          { events :=
              [Event.readFile (lib.pathJoin home credsFileName),
               Event.readFile (lib.pathJoin home tokenFileName),
               Event.listen ("localhost:" ++ toString serverPort),
               Event.print ("Open your browser to "
                 ++ lib.authCodeURL creds.ID
                      ("http://localhost:" ++ toString serverPort ++ "/" ++ oauth2Callback)
                      ["user:read:follows"] ++ "\n"),
               Event.exchangeCall "",
               Event.print ("Exchanging code for token: " ++ e ++ "\n")],
            outcome := Outcome.exit 1 } := by
  rw [main_reached lib w home creds h, loadToken_absent lib w creds _ _ m habs]
  simp only [hl, hreqs, serve_skip w _ pre _ hpre]
  have hfv := formValue_absent r "code" hcode
  refine ⟨?_, ?_⟩
  · cases hx : retrieveToken (w.exchange 0 "") [] with
    | error e =>
      rw [serve_cons_failed w _ r post hr e (by simpa [hfv] using hx)]
      simp [Run.after, hfv]
    | ok t =>
      rw [serve_cons_done w _ r post hr t (by simpa [hfv] using hx)]
      generalize (serve w { token := some t, closed := true, exchanges := 0 + 1 } post) = sv
      obtain ⟨es, ost⟩ := sv
      cases ost with
      | none => simp [Run.after, hfv]
      | some st => by_cases hc : st.closed = true <;> simp [Run.after, hfv, hc]
  · intro e hx
    rw [serve_cons_failed w _ r post hr e (by simpa [hfv] using hx)]
    simp [Run.after, hfv]

theorem callback_without_code_witness :
    Reached refLib consentDenied "/home/u" ⟨"cid", "sec"⟩
      ∧ Event.exchangeCall "" ∈ (main refLib consentDenied).events
      ∧ (main refLib consentDenied).outcome = Outcome.exit 1
      ∧ (main refLib consentDenied).events.countP Event.isWrite = 0 :=
  have h := callback_without_code refLib consentDenied "/home/u" ⟨"cid", "sec"⟩
    "no such file or directory" { path := "/callback", form := [("error", "access_denied")] } [] []
    ⟨Or.inr (by decide), rfl, _, rfl, rfl⟩ rfl rfl rfl rfl rfl (by decide)
  ⟨⟨Or.inr (by decide), rfl, _, rfl, rfl⟩, h.1,
   by rw [h.2 "oauth2: cannot fetch token: 400 Bad Request" rfl],
   by rw [h.2 "oauth2: cannot fetch token: 400 Bad Request" rfl]; rfl⟩

/-- C6 (as stated) fails: the callback request of `consentDenied` carries
`error=access_denied` and no code, and the handler still makes an exchange call, with
the empty code. -/
theorem denied_consent_is_exchanged :
    consentDenied.reqsUntilResume = [{ path := "/callback", form := [("error", "access_denied")] }]
      ∧ (main refLib consentDenied).events.countP Event.isExchange = 1
      ∧ (main refLib consentDenied).events.getLast? =
          some (Event.print
            "Exchanging code for token: oauth2: cannot fetch token: 400 Bad Request\n") := by
  decide

/-! ### Failures before the token is stored -/

theorem countP_write_of_serving (l : List Event) (h : ∀ e ∈ l, e.isServing = true) :
    l.countP Event.isWrite = 0 := by
  rw [List.countP_eq_zero]
  intro e he
  have := h e he
  cases e <;> simp_all [Event.isServing, Event.isWrite]

theorem countP_write_of_refresh (l : List Event) (h : ∀ e ∈ l, e.isRefresh = true) :
    l.countP Event.isWrite = 0 := by
  rw [List.countP_eq_zero]
  intro e he
  have := h e he
  cases e <;> simp_all [Event.isRefresh, Event.isWrite]

theorem authenticated_refresh_failed (lib : Lib) (w : World) (creds : ClientCreds)
    (chan tokenPath : String) (listening : Bool) (st : Shared) (e : String)
    (h : (tokenSource_Token w st.token).2 = .error e) :
    (authenticated lib w creds chan tokenPath listening st).events.countP Event.isWrite = 0
      ∧ (authenticated lib w creds chan tokenPath listening st).outcome = Outcome.exit 1 := by
  unfold authenticated
  have href := tokenSource_refresh_only w st.token
  revert h href
  generalize tokenSource_Token w st.token = ts
  obtain ⟨es, res⟩ := ts
  intro h href
  simp only at h
  subst h
  simp [Run.after, die, List.countP_append, countP_write_of_refresh es href, Event.isWrite]

theorem authenticated_reload_failed (lib : Lib) (w : World) (creds : ClientCreds)
    (chan tokenPath : String) (listening : Bool) (st : Shared) (t : Token)
    (h : (tokenSource_Token w st.token).2 = .ok t)
    (hdied : (serve w { st with token := some t }
      (if listening then w.reqsBeforeStore else [])).2 = none) :
    (authenticated lib w creds chan tokenPath listening st).events.countP Event.isWrite = 0
      ∧ (authenticated lib w creds chan tokenPath listening st).outcome = Outcome.exit 1 := by
  unfold authenticated
  have href := tokenSource_refresh_only w st.token
  revert h href
  generalize tokenSource_Token w st.token = ts
  obtain ⟨es, res⟩ := ts
  intro h href
  simp only at h
  subst h
  have hserv := serve_serving w (if listening then w.reqsBeforeStore else [])
    { st with token := some t }
  simp only
  split
  · rename_i es1 heq
    rw [heq] at hserv
    simp [Run.after, List.countP_append, countP_write_of_refresh es href,
      countP_write_of_serving es1 hserv]
  · rename_i es1 st1 heq
    rw [heq] at hdied
    cases hdied

theorem absent_run_cases (lib : Lib) (w : World) (creds : ClientCreds)
    (chan tokenPath m : String) (habs : w.readFile tokenPath = .notExist m) :
    (∃ tail, (loadToken lib w creds chan tokenPath).events =
          [Event.readFile tokenPath,
           Event.listen ("localhost:" ++ toString serverPort),
           Event.print ("Open your browser to "
             ++ lib.authCodeURL creds.ID
                  ("http://localhost:" ++ toString serverPort ++ "/" ++ oauth2Callback)
                  ["user:read:follows"] ++ "\n")] ++ tail
        ∧ ∀ e ∈ tail, e.isServing = true)
    ∨ (∃ es st, (loadToken lib w creds chan tokenPath).events =
          ([Event.readFile tokenPath,
            Event.listen ("localhost:" ++ toString serverPort),
            Event.print ("Open your browser to "
              ++ lib.authCodeURL creds.ID
                   ("http://localhost:" ++ toString serverPort ++ "/" ++ oauth2Callback)
                   ["user:read:follows"] ++ "\n")] ++ es)
          ++ (authenticated lib w creds chan tokenPath true st).events
        ∧ (∀ e ∈ es, e.isServing = true) ∧ Event.signal ∈ es) := by
  rw [loadToken_absent lib w creds chan tokenPath m habs]
  cases hl : w.listenErr with
  | some e =>
    left
    refine ⟨[Event.print ("OAuth2 server exit: " ++ e ++ "\n")], by simp [Run.after, die], ?_⟩
    intro x hx
    simp at hx
    subst hx
    rfl
  | none =>
    have hserv := serve_serving w w.reqsUntilResume
      { token := none, closed := false, exchanges := 0 }
    have hsig := serve_closed_signal w w.reqsUntilResume
      { token := none, closed := false, exchanges := 0 }
    generalize serve w { token := none, closed := false, exchanges := 0 }
      w.reqsUntilResume = sv at hserv hsig
    obtain ⟨es, ost⟩ := sv
    cases ost with
    | none => left; exact ⟨es, by simp [Run.after], hserv⟩
    | some st =>
      by_cases hc : st.closed = true
      · right
        exact ⟨es, st, by simp [Run.after, hc], hserv, hsig st rfl rfl hc⟩
      · left
        exact ⟨es, by simp [Run.after, hc], hserv⟩

/-- What holds of the failures that precede line 122: in a run that reaches credential
loading, no file is written and the process exits with status 1 whenever reading the
token file fails for another reason than absence, the stored token does not parse,
`tokenSource.Token()` returns an error, or a code exchange fails before `main` has
resumed from waiting for the callback or between lines 112 and 118; and when the token
file is absent, every write is preceded by the completion signal of a successful code
exchange. -/
theorem no_store_after_failure (lib : Lib) (w : World) (home : String) (creds : ClientCreds)
    (h : Reached lib w home creds) :
    (∀ m, w.readFile (lib.pathJoin home tokenFileName) = .failed m →
      (main lib w).events.countP Event.isWrite = 0 ∧ (main lib w).outcome = Outcome.exit 1)
    ∧ (∀ tokenBs e, w.readFile (lib.pathJoin home tokenFileName) = .ok tokenBs →
        unmarshalToken lib tokenBs = .error e →
        (main lib w).events.countP Event.isWrite = 0 ∧ (main lib w).outcome = Outcome.exit 1)
    ∧ (∀ tokenBs t e, w.readFile (lib.pathJoin home tokenFileName) = .ok tokenBs →
        unmarshalToken lib tokenBs = .ok t → (tokenSource_Token w (some t)).2 = .error e →
        (main lib w).events.countP Event.isWrite = 0 ∧ (main lib w).outcome = Outcome.exit 1)
    ∧ (∀ m, w.readFile (lib.pathJoin home tokenFileName) = .notExist m → w.listenErr = none →
        (serve w { token := none, closed := false, exchanges := 0 } w.reqsUntilResume).2 = none →
        (main lib w).events.countP Event.isWrite = 0 ∧ (main lib w).outcome = Outcome.exit 1)
    ∧ (∀ m st e, w.readFile (lib.pathJoin home tokenFileName) = .notExist m →
        w.listenErr = none →
        (serve w { token := none, closed := false, exchanges := 0 } w.reqsUntilResume).2 = some st →
        st.closed = true → (tokenSource_Token w st.token).2 = .error e →
        (main lib w).events.countP Event.isWrite = 0 ∧ (main lib w).outcome = Outcome.exit 1)
    ∧ (∀ m st t, w.readFile (lib.pathJoin home tokenFileName) = .notExist m →
        w.listenErr = none →
        (serve w { token := none, closed := false, exchanges := 0 } w.reqsUntilResume).2 = some st →
        st.closed = true → (tokenSource_Token w st.token).2 = .ok t →
        (serve w { st with token := some t } w.reqsBeforeStore).2 = none →
        (main lib w).events.countP Event.isWrite = 0 ∧ (main lib w).outcome = Outcome.exit 1)
    ∧ (∀ m pre path data perm post,
        w.readFile (lib.pathJoin home tokenFileName) = .notExist m →
        (main lib w).events = pre ++ Event.writeFile path data perm :: post →
        Event.signal ∈ pre) := by
  rw [main_reached lib w home creds h]
  refine ⟨?_, ?_, ?_, ?_, ?_, ?_, ?_⟩
  · intro m hm
    simp [loadToken, hm, Run.after, die, Event.isWrite]
  · intro tokenBs e hread hparse
    simp [loadToken, hread, hparse, Run.after, die, Event.isWrite]
  · intro tokenBs t e hread hparse hts
    have := authenticated_refresh_failed lib w creds (w.chan lib)
      (lib.pathJoin home tokenFileName) false
      { token := some t, closed := false, exchanges := 0 } e hts
    simp [loadToken, hread, hparse, Run.after, Event.isWrite, List.countP_cons, this]
  · intro m hm hl hdied
    rw [loadToken_absent lib w creds _ _ m hm]
    have hserv := serve_serving w w.reqsUntilResume
      { token := none, closed := false, exchanges := 0 }
    revert hdied hserv
    generalize serve w { token := none, closed := false, exchanges := 0 } w.reqsUntilResume = sv
    obtain ⟨es, ost⟩ := sv
    intro hdied hserv
    simp only at hdied
    subst hdied
    simp [hl, Run.after, List.countP_cons, List.countP_append, Event.isWrite,
      countP_write_of_serving es hserv]
  · intro m st e hm hl hsome hc hts
    rw [loadToken_absent lib w creds _ _ m hm]
    have hserv := serve_serving w w.reqsUntilResume
      { token := none, closed := false, exchanges := 0 }
    have := authenticated_refresh_failed lib w creds (w.chan lib)
      (lib.pathJoin home tokenFileName) true st e hts
    revert hsome hserv
    generalize serve w { token := none, closed := false, exchanges := 0 } w.reqsUntilResume = sv
    obtain ⟨es, ost⟩ := sv
    intro hsome hserv
    simp only at hsome
    subst hsome
    simp [hl, hc, Run.after, List.countP_cons, List.countP_append, Event.isWrite,
      countP_write_of_serving es hserv, this]
  · intro m st t hm hl hsome hc hts hdied
    rw [loadToken_absent lib w creds _ _ m hm]
    have hserv := serve_serving w w.reqsUntilResume
      { token := none, closed := false, exchanges := 0 }
    have := authenticated_reload_failed lib w creds (w.chan lib)
      (lib.pathJoin home tokenFileName) true st t hts hdied
    revert hsome hserv
    generalize serve w { token := none, closed := false, exchanges := 0 } w.reqsUntilResume = sv
    obtain ⟨es, ost⟩ := sv
    intro hsome hserv
    simp only at hsome
    subst hsome
    simp [hl, hc, Run.after, List.countP_cons, List.countP_append, Event.isWrite,
      countP_write_of_serving es hserv, this]
  · intro m pre path data perm post hm hsplit
    have hnot : ∀ l : List Event, (∀ e ∈ l, e.isServing = true) →
        Event.writeFile path data perm ∉ l := fun l hl hmem => by
      have := hl _ hmem
      simp [Event.isServing] at this
    rcases absent_run_cases lib w creds (w.chan lib) (lib.pathJoin home tokenFileName) m hm with
      ⟨tail, htail, hserv⟩ | ⟨es, st, hev, hserv, hsig⟩
    · exfalso
      have hmem : Event.writeFile path data perm ∈ pre ++ Event.writeFile path data perm :: post := by
        simp
      rw [← hsplit] at hmem
      simp only [Run.after, htail, List.singleton_append, List.cons_append, List.nil_append,
        List.mem_cons] at hmem
      rcases hmem with hmem | hmem | hmem | hmem | hmem
      · cases hmem
      · cases hmem
      · cases hmem
      · cases hmem
      · exact hnot tail hserv hmem
    · have hsplit2 : ([Event.readFile (lib.pathJoin home credsFileName)]
            ++ ([Event.readFile (lib.pathJoin home tokenFileName),
              Event.listen ("localhost:" ++ toString serverPort),
              Event.print ("Open your browser to "
                ++ lib.authCodeURL creds.ID
                     ("http://localhost:" ++ toString serverPort ++ "/" ++ oauth2Callback)
                     ["user:read:follows"] ++ "\n")] ++ es))
          ++ (authenticated lib w creds (w.chan lib) (lib.pathJoin home tokenFileName)
                true st).events = pre ++ Event.writeFile path data perm :: post := by
        rw [← hsplit]
        simp [Run.after, hev]
      obtain ⟨k, hk⟩ := prefix_of_split hsplit2 (by
        simp only [List.mem_append, List.mem_cons, List.mem_singleton, not_or]
        refine ⟨by simp, ⟨by simp, by simp, by simp, by simp⟩, hnot es hserv⟩)
      rw [hk]
      simp [hsig]

theorem no_store_after_failure_witness :
    Reached refLib consentDenied "/home/u" ⟨"cid", "sec"⟩
      ∧ (serve consentDenied { token := none, closed := false, exchanges := 0 }
          consentDenied.reqsUntilResume).2 = none
      ∧ (main refLib consentDenied).events.countP Event.isWrite = 0
      ∧ (main refLib consentDenied).outcome = Outcome.exit 1 :=
  ⟨⟨Or.inr (by decide), rfl, _, rfl, rfl⟩, rfl,
   (no_store_after_failure refLib consentDenied "/home/u" ⟨"cid", "sec"⟩
      ⟨Or.inr (by decide), rfl, _, rfl, rfl⟩).2.2.2.1 "no such file or directory" rfl rfl rfl⟩

set_option maxRecDepth 100000 in
/-- C3: a run can end in a failure of the code exchange after the token file was
written.  In `reloadAfterStore` the token file is absent, the first callback request is
exchanged and the token is stored (line 122); the listener is still up, so a second
request for the callback URL is handled while the queries run, the provider rejects the
code it has already seen, and the handler ends the process through `die`: the run has
performed one write and ends with `Exchanging code for token` and exit status 1. -/
theorem exchange_failure_after_store :
    (main refLib reloadAfterStore).events.countP Event.isWrite = 1
      ∧ (main refLib reloadAfterStore).events.getLast? =
          some (Event.print
            "Exchanging code for token: oauth2: cannot fetch token: 400 Bad Request\n")
      ∧ (main refLib reloadAfterStore).outcome = Outcome.exit 1
      ∧ (main refLib reloadAfterStore).events.drop 4 =
          [Event.exchangeCall "abc", Event.signal,
           Event.writeFile "/home/u/.twitch-search.json"
             (bytes ("\x7b\"access_token\":\"at1\",\"token_type\":\"bearer\","
               ++ "\"refresh_token\":\"rt1\",\"expiry\":\"2022-06-01T00:00:00Z\"\x7d")) 0o600,
           Event.exchangeCall "abc",
           Event.print
             "Exchanging code for token: oauth2: cannot fetch token: 400 Bad Request\n"] := by
  decide

set_option maxRecDepth 100000 in
/-- C5: the listener outlives the first callback.  In `reloadBeforeStore` a second
request for the callback URL, served after the first one signalled completion, makes a
second exchange call and its failure ends the process.  In `secondGrant` the second
exchange succeeds: the handler replaces the in-memory token, its `close(onCallback)`
panics, and the token written to the file is the one of the second request. -/
theorem later_callback_is_served :
    (main refLib reloadBeforeStore).events.drop 4 =
        [Event.exchangeCall "abc", Event.signal, Event.exchangeCall "abc",
         Event.print "Exchanging code for token: oauth2: cannot fetch token: 400 Bad Request\n"]
      ∧ (main refLib reloadBeforeStore).outcome = Outcome.exit 1
      ∧ ((main refLib secondGrant).events.drop 4).take 5 =
        [Event.exchangeCall "abc", Event.signal, Event.exchangeCall "xyz", Event.handlerPanic,
         Event.writeFile "/home/u/.twitch-search.json"
           (bytes ("\x7b\"access_token\":\"at9\",\"token_type\":\"bearer\","
             ++ "\"refresh_token\":\"rt9\",\"expiry\":\"2022-06-01T00:00:00Z\"\x7d")) 0o600] := by
  decide

/-! ### The stored credential: UTF-8 -/

theorem char_range (c : Char) :
    c.toNat < 0xD800 ∨ (0xDFFF < c.toNat ∧ c.toNat < 0x110000) := by
  have h := c.valid
  simpa [UInt32.isValidChar, Nat.isValidChar, Char.toNat] using h

theorem toNat_ofNat_u8 (n : Nat) (h : n < 256) : (UInt8.ofNat n).toNat = n := by
  simp [UInt8.toNat, UInt8.ofNat, Fin.ofNat, Nat.mod_eq_of_lt h]

theorem decodeRune_encodeRune (c : Char) (rest : Bytes) :
    decodeRune (encodeRune c ++ rest) = some (c, (encodeRune c).length) := by
  have hr := char_range c
  unfold encodeRune
  by_cases h1 : c.toNat < 0x80
  · have t0 : (UInt8.ofNat c.toNat).toNat = c.toNat := toNat_ofNat_u8 _ (by omega)
    simp [h1, decodeRune, t0, Char.ofNat_toNat]
  · by_cases h2 : c.toNat < 0x800
    · have t0 : (UInt8.ofNat (0xC0 + c.toNat / 64)).toNat = 0xC0 + c.toNat / 64 :=
        toNat_ofNat_u8 _ (by omega)
      have t1 : (UInt8.ofNat (0x80 + c.toNat % 64)).toNat = 0x80 + c.toNat % 64 :=
        toNat_ofNat_u8 _ (by omega)
      have e : (0xC0 + c.toNat / 64 - 0xC0) * 64 + (0x80 + c.toNat % 64 - 0x80) = c.toNat := by omega
      have a1 : ¬ (0xC0 + c.toNat / 64 < 0x80) := by omega
      have a2 : 0xC2 ≤ 0xC0 + c.toNat / 64 ∧ 0xC0 + c.toNat / 64 ≤ 0xDF := by omega
      have a3 : 0x80 ≤ 0x80 + c.toNat % 64 ∧ 0x80 + c.toNat % 64 ≤ 0xBF := by omega
      simp only [h1, h2, if_true, if_false, List.cons_append, List.nil_append, decodeRune, isCont,
        t0, t1, a1, a2, a3, e, Char.ofNat_toNat, and_self, decide_True, List.length_cons,
        List.length_nil]
    · by_cases h3 : c.toNat < 0x10000
      · have t0 : (UInt8.ofNat (0xE0 + c.toNat / 4096)).toNat = 0xE0 + c.toNat / 4096 :=
          toNat_ofNat_u8 _ (by omega)
        have t1 : (UInt8.ofNat (0x80 + c.toNat / 64 % 64)).toNat = 0x80 + c.toNat / 64 % 64 :=
          toNat_ofNat_u8 _ (by omega)
        have t2 : (UInt8.ofNat (0x80 + c.toNat % 64)).toNat = 0x80 + c.toNat % 64 :=
          toNat_ofNat_u8 _ (by omega)
        have e : (0xE0 + c.toNat / 4096 - 0xE0) * 4096 + (0x80 + c.toNat / 64 % 64 - 0x80) * 64
            + (0x80 + c.toNat % 64 - 0x80) = c.toNat := by omega
        have a1 : ¬ (0xE0 + c.toNat / 4096 < 0x80) := by omega
        have a2 : ¬ (0xC2 ≤ 0xE0 + c.toNat / 4096 ∧ 0xE0 + c.toNat / 4096 ≤ 0xDF) := by omega
        have a3 : 0xE0 ≤ 0xE0 + c.toNat / 4096 ∧ 0xE0 + c.toNat / 4096 ≤ 0xEF := by omega
        have a4 : ((if 0xE0 + c.toNat / 4096 = 0xE0 then 0xA0 else 0x80) ≤ 0x80 + c.toNat / 64 % 64
            ∧ 0x80 + c.toNat / 64 % 64 ≤ (if 0xE0 + c.toNat / 4096 = 0xED then 0x9F else 0xBF)
            ∧ decide (0x80 ≤ 0x80 + c.toNat % 64 ∧ 0x80 + c.toNat % 64 ≤ 0xBF) = true) := by
          refine ⟨?_, ?_, ?_⟩
          · split <;> omega
          · split <;> omega
          · simp; omega
        simp only [h1, h2, h3, if_true, if_false, List.cons_append, List.nil_append, decodeRune,
          isCont, t0, t1, t2, a1, a2, a3, a4, e, Char.ofNat_toNat, and_self, List.length_cons,
          List.length_nil]
      · have t0 : (UInt8.ofNat (0xF0 + c.toNat / 262144)).toNat = 0xF0 + c.toNat / 262144 :=
          toNat_ofNat_u8 _ (by omega)
        have t1 : (UInt8.ofNat (0x80 + c.toNat / 4096 % 64)).toNat = 0x80 + c.toNat / 4096 % 64 :=
          toNat_ofNat_u8 _ (by omega)
        have t2 : (UInt8.ofNat (0x80 + c.toNat / 64 % 64)).toNat = 0x80 + c.toNat / 64 % 64 :=
          toNat_ofNat_u8 _ (by omega)
        have t3 : (UInt8.ofNat (0x80 + c.toNat % 64)).toNat = 0x80 + c.toNat % 64 :=
          toNat_ofNat_u8 _ (by omega)
        have e : (0xF0 + c.toNat / 262144 - 0xF0) * 262144
            + (0x80 + c.toNat / 4096 % 64 - 0x80) * 4096
            + (0x80 + c.toNat / 64 % 64 - 0x80) * 64
            + (0x80 + c.toNat % 64 - 0x80) = c.toNat := by omega
        have a1 : ¬ (0xF0 + c.toNat / 262144 < 0x80) := by omega
        have a2 : ¬ (0xC2 ≤ 0xF0 + c.toNat / 262144 ∧ 0xF0 + c.toNat / 262144 ≤ 0xDF) := by omega
        have a3 : ¬ (0xE0 ≤ 0xF0 + c.toNat / 262144 ∧ 0xF0 + c.toNat / 262144 ≤ 0xEF) := by omega
        have a4 : 0xF0 ≤ 0xF0 + c.toNat / 262144 ∧ 0xF0 + c.toNat / 262144 ≤ 0xF4 := by omega
        have a5 : ((if 0xF0 + c.toNat / 262144 = 0xF0 then 0x90 else 0x80)
              ≤ 0x80 + c.toNat / 4096 % 64
            ∧ 0x80 + c.toNat / 4096 % 64
              ≤ (if 0xF0 + c.toNat / 262144 = 0xF4 then 0x8F else 0xBF)
            ∧ decide (0x80 ≤ 0x80 + c.toNat / 64 % 64 ∧ 0x80 + c.toNat / 64 % 64 ≤ 0xBF) = true
            ∧ decide (0x80 ≤ 0x80 + c.toNat % 64 ∧ 0x80 + c.toNat % 64 ≤ 0xBF) = true) := by
          refine ⟨?_, ?_, ?_, ?_⟩
          · split <;> omega
          · split <;> omega
          · simp; omega
          · simp; omega
        simp only [h1, h2, h3, if_true, if_false, List.cons_append, List.nil_append, decodeRune,
          isCont, t0, t1, t2, t3, a1, a2, a3, a4, a5, e, Char.ofNat_toNat, and_self,
          List.length_cons, List.length_nil]

theorem toNat_ofNat_char (v : Nat) (h : v < 0xD800 ∨ (0xDFFF < v ∧ v < 0x110000)) :
    (Char.ofNat v).toNat = v := by
  have hv : v.isValidChar := h
  simp [Char.ofNat, hv, Char.ofNatAux, Char.toNat, UInt32.toNat]

theorem ofNat_toNat_u8 (b : UInt8) : UInt8.ofNat b.toNat = b := by
  cases b with
  | mk v =>
    apply UInt8.ext
    simp [UInt8.toNat, UInt8.ofNat, Fin.ofNat, Nat.mod_eq_of_lt v.isLt]

theorem u8_lt (b : UInt8) : b.toNat < 256 := b.val.isLt

theorem encodeRune_decodeRune (bs : Bytes) (c : Char) (k : Nat)
    (h : decodeRune bs = some (c, k)) :
    encodeRune c ++ bs.drop k = bs ∧ (encodeRune c).length = k := by
  cases bs with
  | nil => simp [decodeRune] at h
  | cons b0 rest =>
    have l0 := u8_lt b0
    simp only [decodeRune] at h
    by_cases c1 : b0.toNat < 0x80
    · simp only [c1, if_true, Option.some.injEq, Prod.mk.injEq] at h
      obtain ⟨hc, hk⟩ := h
      subst hc hk
      have e : (Char.ofNat b0.toNat).toNat = b0.toNat := toNat_ofNat_char _ (by omega)
      simp [encodeRune, e, c1, ofNat_toNat_u8]
    · simp only [c1, if_false] at h
      by_cases c2 : 0xC2 ≤ b0.toNat ∧ b0.toNat ≤ 0xDF
      · simp only [c2, and_self, if_true] at h
        cases rest with
        | nil => simp at h
        | cons b1 rest1 =>
          have l1 := u8_lt b1
          simp only at h
          by_cases c3 : isCont b1 = true
          · simp only [c3, if_true, Option.some.injEq, Prod.mk.injEq] at h
            obtain ⟨hc, hk⟩ := h
            subst hc hk
            simp only [isCont, decide_eq_true_eq] at c3
            have e : (Char.ofNat ((b0.toNat - 0xC0) * 64 + (b1.toNat - 0x80))).toNat
                = (b0.toNat - 0xC0) * 64 + (b1.toNat - 0x80) := toNat_ofNat_char _ (by omega)
            have g1 : ¬ ((b0.toNat - 0xC0) * 64 + (b1.toNat - 0x80) < 0x80) := by omega
            have g2 : (b0.toNat - 0xC0) * 64 + (b1.toNat - 0x80) < 0x800 := by omega
            have x0 : 0xC0 + ((b0.toNat - 0xC0) * 64 + (b1.toNat - 0x80)) / 64 = b0.toNat := by omega
            have x1 : 0x80 + ((b0.toNat - 0xC0) * 64 + (b1.toNat - 0x80)) % 64 = b1.toNat := by omega
            simp only [encodeRune, e, g1, g2, if_true, if_false, x0, x1, ofNat_toNat_u8]
            simp
          · simp [c3] at h
      · simp only [c2, if_false] at h
        by_cases c4 : 0xE0 ≤ b0.toNat ∧ b0.toNat ≤ 0xEF
        · simp only [c4, and_self, if_true] at h
          match rest, h with
          | [], h => simp at h
          | [_], h => simp at h
          | b1 :: b2 :: rest2, h =>
            have l1 := u8_lt b1
            have l2 := u8_lt b2
            simp only at h
            by_cases c5 : (if b0.toNat = 0xE0 then 0xA0 else 0x80) ≤ b1.toNat
                ∧ b1.toNat ≤ (if b0.toNat = 0xED then 0x9F else 0xBF) ∧ isCont b2 = true
            · rw [if_pos c5] at h
              simp only [Option.some.injEq, Prod.mk.injEq] at h
              obtain ⟨hc, hk⟩ := h
              subst hc hk
              obtain ⟨h3a, h3b, h3c⟩ := c5
              simp only [isCont, decide_eq_true_eq] at h3c
              have r1 : 0x80 ≤ b1.toNat ∧ b1.toNat ≤ 0xBF := by
                split at h3a <;> split at h3b <;> omega
              have r2 : b0.toNat = 0xE0 → 0xA0 ≤ b1.toNat := by
                intro hb; rw [if_pos hb] at h3a; exact h3a
              have r3 : b0.toNat = 0xED → b1.toNat ≤ 0x9F := by
                intro hb; rw [if_pos hb] at h3b; exact h3b
              generalize hv : (b0.toNat - 0xE0) * 4096 + (b1.toNat - 0x80) * 64
                + (b2.toNat - 0x80) = v
              have vv : v < 0xD800 ∨ (0xDFFF < v ∧ v < 0x110000) := by
                by_cases hb : b0.toNat = 0xED
                · have := r3 hb; omega
                · omega
              have e : (Char.ofNat v).toNat = v := toNat_ofNat_char _ vv
              have g2 : ¬ (v < 0x800) := by
                by_cases hb : b0.toNat = 0xE0
                · have := r2 hb; omega
                · omega
              have g1 : ¬ (v < 0x80) := by omega
              have g3 : v < 0x10000 := by omega
              have x0 : 0xE0 + v / 4096 = b0.toNat := by omega
              have x1 : 0x80 + v / 64 % 64 = b1.toNat := by omega
              have x2 : 0x80 + v % 64 = b2.toNat := by omega
              simp only [encodeRune, e, g1, g2, g3, if_true, if_false, x0, x1, x2, ofNat_toNat_u8]
              simp
            · rw [if_neg c5] at h
              cases h
        · simp only [c4, if_false] at h
          by_cases c6 : 0xF0 ≤ b0.toNat ∧ b0.toNat ≤ 0xF4
          · simp only [c6, and_self, if_true] at h
            match rest, h with
            | [], h => simp at h
            | [_], h => simp at h
            | [_, _], h => simp at h
            | b1 :: b2 :: b3 :: rest3, h =>
              have l1 := u8_lt b1
              have l2 := u8_lt b2
              have l3 := u8_lt b3
              simp only at h
              by_cases c7 : (if b0.toNat = 0xF0 then 0x90 else 0x80) ≤ b1.toNat
                  ∧ b1.toNat ≤ (if b0.toNat = 0xF4 then 0x8F else 0xBF)
                  ∧ isCont b2 = true ∧ isCont b3 = true
              · rw [if_pos c7] at h
                simp only [Option.some.injEq, Prod.mk.injEq] at h
                obtain ⟨hc, hk⟩ := h
                subst hc hk
                obtain ⟨h4a, h4b, h4c, h4d⟩ := c7
                simp only [isCont, decide_eq_true_eq] at h4c h4d
                have r1 : 0x80 ≤ b1.toNat ∧ b1.toNat ≤ 0xBF := by
                  split at h4a <;> split at h4b <;> omega
                have r2 : b0.toNat = 0xF0 → 0x90 ≤ b1.toNat := by
                  intro hb; rw [if_pos hb] at h4a; exact h4a
                have r3 : b0.toNat = 0xF4 → b1.toNat ≤ 0x8F := by
                  intro hb; rw [if_pos hb] at h4b; exact h4b
                generalize hv : (b0.toNat - 0xF0) * 262144 + (b1.toNat - 0x80) * 4096
                  + (b2.toNat - 0x80) * 64 + (b3.toNat - 0x80) = v
                have g3 : ¬ (v < 0x10000) := by
                  by_cases hb : b0.toNat = 0xF0
                  · have := r2 hb; omega
                  · omega
                have vv : v < 0xD800 ∨ (0xDFFF < v ∧ v < 0x110000) := by
                  by_cases hb : b0.toNat = 0xF4
                  · have := r3 hb; omega
                  · omega
                have e : (Char.ofNat v).toNat = v := toNat_ofNat_char _ vv
                have g1 : ¬ (v < 0x80) := by omega
                have g2 : ¬ (v < 0x800) := by omega
                have x0 : 0xF0 + v / 262144 = b0.toNat := by
                  by_cases hb : b0.toNat = 0xF4
                  · have := r3 hb; omega
                  · omega
                have x1 : 0x80 + v / 4096 % 64 = b1.toNat := by omega
                have x2 : 0x80 + v / 64 % 64 = b2.toNat := by omega
                have x3 : 0x80 + v % 64 = b3.toNat := by omega
                simp only [encodeRune, e, g1, g2, g3, if_false, x0, x1, x2, x3, ofNat_toNat_u8]
                simp
              · rw [if_neg c7] at h
                cases h
          · simp [c6] at h


theorem appendAux_skip (l rest : Bytes) : appendAux l.length (l ++ rest) = appendAux 0 rest := by
  induction l with
  | nil => rfl
  | cons b l ih => simpa [appendAux] using ih

theorem validAux_skip (l rest : Bytes) : validAux l.length (l ++ rest) = validAux 0 rest := by
  induction l with
  | nil => rfl
  | cons b l ih => simpa [validAux] using ih

theorem runesAux_skip (l rest : Bytes) : runesAux l.length (l ++ rest) = runesAux 0 rest := by
  induction l with
  | nil => rfl
  | cons b l ih => simpa [runesAux] using ih

theorem encodeRune_cons (c : Char) :
    ∃ b tail, encodeRune c = b :: tail ∧ (0x80 ≤ c.toNat → 0x80 ≤ b.toNat) := by
  have hr := char_range c
  unfold encodeRune
  by_cases h1 : c.toNat < 0x80
  · rw [if_pos h1]
    exact ⟨_, _, rfl, fun h => by omega⟩
  · rw [if_neg h1]
    by_cases h2 : c.toNat < 0x800
    · rw [if_pos h2]
      refine ⟨_, _, rfl, fun _ => ?_⟩
      rw [toNat_ofNat_u8 _ (by omega)]; omega
    · rw [if_neg h2]
      by_cases h3 : c.toNat < 0x10000
      · rw [if_pos h3]
        refine ⟨_, _, rfl, fun _ => ?_⟩
        rw [toNat_ofNat_u8 _ (by omega)]; omega
      · rw [if_neg h3]
        refine ⟨_, _, rfl, fun _ => ?_⟩
        rw [toNat_ofNat_u8 _ (by omega)]; omega

theorem appendAux_encodeRune (c : Char) (rest : Bytes) :
    appendAux 0 (encodeRune c ++ rest) = escapeRune c ++ appendAux 0 rest := by
  obtain ⟨b, tail, hb, _⟩ := encodeRune_cons c
  have hd := decodeRune_encodeRune c rest
  rw [hb] at hd ⊢
  simp only [List.cons_append] at hd ⊢
  simp only [appendAux, hd, List.length_cons, Nat.add_sub_cancel]
  rw [appendAux_skip]

theorem appendAux_bytes (s : List Char) :
    appendAux 0 (s.flatMap encodeRune) = s.flatMap escapeRune := by
  induction s with
  | nil => rfl
  | cons c s ih => simp only [List.flatMap_cons, appendAux_encodeRune, ih]

theorem bytes_runes_of_valid (n : Nat) : ∀ (s : Bytes), s.length ≤ n → validAux 0 s = true →
    (runesAux 0 s).flatMap encodeRune = s := by
  induction n with
  | zero =>
    intro s hs _
    have : s = [] := List.length_eq_zero.mp (by omega)
    subst this
    rfl
  | succ n ih =>
    intro s hs hv
    cases s with
    | nil => rfl
    | cons b rest =>
      simp only [validAux] at hv
      cases hd : decodeRune (b :: rest) with
      | none => simp [hd] at hv
      | some p =>
        obtain ⟨c, k⟩ := p
        simp only [hd] at hv
        obtain ⟨hsplit, hk⟩ := encodeRune_decodeRune _ _ _ hd
        obtain ⟨b', tail, hb, _⟩ := encodeRune_cons c
        have hk1 : k - 1 = tail.length := by rw [← hk, hb]; simp
        have hrest : rest = tail ++ (b :: rest).drop k := by
          rw [hb] at hsplit
          simp only [List.cons_append, List.cons.injEq] at hsplit
          exact hsplit.2.symm
        have hkpos : 1 ≤ k := by rw [← hk, hb]; simp
        have hlen2 : ((b :: rest).drop k).length ≤ n := by
          simp only [List.length_drop, List.length_cons] at hs ⊢
          omega
        have hv2 : validAux 0 ((b :: rest).drop k) = true := by
          rw [hrest, hk1, validAux_skip] at hv
          exact hv
        have hr : runesAux 0 (b :: rest) = c :: runesAux 0 ((b :: rest).drop k) := by
          simp only [runesAux, hd]
          conv_lhs => rw [hrest, hk1, runesAux_skip]
        rw [hr, List.flatMap_cons, ih _ hlen2 hv2, hsplit]


/-! ### The stored credential: JSON strings -/

theorem lexString_skip (l rest : Bytes) (acc : List Nat) :
    lexString l.length (l ++ rest) acc = lexString 0 rest acc := by
  induction l with
  | nil => rfl
  | cons b l ih => simpa [lexString] using ih

theorem lexString_escapeAscii (n : Nat) (hn : n < 0x80) (rest : Bytes) (acc : List Nat) :
    lexString 0 (escapeAscii n ++ rest) acc = lexString 0 rest (n :: acc) := by
  interval_cases n <;> rfl

theorem lexString_escapeRune (c : Char) (rest : Bytes) (acc : List Nat) :
    lexString 0 (escapeRune c ++ rest) acc = lexString 0 rest (c.toNat :: acc) := by
  unfold escapeRune
  by_cases h1 : c.toNat < 0x80
  · rw [if_pos h1]
    exact lexString_escapeAscii _ h1 _ _
  · rw [if_neg h1]
    by_cases h2 : c.toNat = 0x2028
    · rw [if_pos h2, h2]
      rfl
    · rw [if_neg h2]
      by_cases h3 : c.toNat = 0x2029
      · rw [if_pos h3, h3]
        rfl
      · rw [if_neg h3]
        obtain ⟨b, tail, hb, hge⟩ := encodeRune_cons c
        have hd := decodeRune_encodeRune c rest
        rw [hb] at hd ⊢
        simp only [List.cons_append] at hd ⊢
        have hb80 : 0x80 ≤ b.toNat := hge (by omega)
        have n1 : b ≠ 34 := by
          intro h
          rw [h] at hb80
          exact absurd hb80 (by decide)
        have n2 : b ≠ 92 := by
          intro h
          rw [h] at hb80
          exact absurd hb80 (by decide)
        have n3 : ¬ b.toNat < 0x20 := by omega
        have n4 : ¬ b.toNat < 0x80 := by omega
        rw [lexString, if_neg n1, if_neg n2, if_neg n3, if_neg n4, hd]
        simp only [List.length_cons, Nat.add_sub_cancel]
        exact lexString_skip tail rest _

theorem lexString_runes (s : List Char) (rest : Bytes) (acc : List Nat) :
    lexString 0 (s.flatMap escapeRune ++ rest) acc
      = lexString 0 rest ((s.map Char.toNat).reverse ++ acc) := by
  induction s generalizing acc with
  | nil => rfl
  | cons c s ih =>
    simp only [List.flatMap_cons, List.append_assoc, lexString_escapeRune, ih, List.map_cons,
      List.reverse_cons, List.singleton_append]

theorem combineUnits_cons (c : Char) (l : List Nat) :
    combineUnits (c.toNat :: l) = c :: combineUnits l := by
  have hr := char_range c
  have h1 : ¬ (0xD800 ≤ c.toNat ∧ c.toNat < 0xE000) := by omega
  cases l with
  | nil => simp only [combineUnits, if_neg h1, Char.ofNat_toNat]
  | cons w rest =>
    have h2 : ¬ (0xD800 ≤ c.toNat ∧ c.toNat < 0xDC00 ∧ 0xDC00 ≤ w ∧ w < 0xE000) := by omega
    simp only [combineUnits, if_neg h1, if_neg h2, Char.ofNat_toNat]

theorem combineUnits_chars (s : List Char) : combineUnits (s.map Char.toNat) = s := by
  induction s with
  | nil => rfl
  | cons c s ih => rw [List.map_cons, combineUnits_cons, ih]

/-- The reader returns the runes of a string written by the encoder. -/
theorem lexString_quoted (s : List Char) (rest : Bytes) :
    lexString 0 (s.flatMap escapeRune ++ 34 :: rest) [] = some (String.mk s, rest) := by
  rw [lexString_runes, lexString]
  simp only [if_true, List.append_nil, List.reverse_reverse, combineUnits_chars]

/-- A valid UTF-8 byte string is the encoding of a text. -/
theorem exists_text_of_valid (s : Bytes) (h : utf8Valid s = true) : ∃ t : String, bytes t = s :=
  ⟨String.mk (runesAux 0 s), bytes_runes_of_valid s.length s (le_refl _) h⟩

/-- Reading back the string the encoder wrote for the bytes of a text gives the text. -/
theorem lexString_appendString (t : String) (rest : Bytes) :
    lexString 0 (appendAux 0 (bytes t) ++ 34 :: rest) [] = some (t, rest) := by
  unfold bytes
  rw [appendAux_bytes, lexString_quoted]


/-! ### The stored credential: time stamps -/

theorem civil_spec (z : Nat) : ∃ n400 n100 n4 n1 doy : Nat,
    z = 146097 * n400 + 36524 * n100 + 1461 * n4 + 365 * n1 + doy ∧ n100 ≤ 3 ∧ n4 ≤ 24 ∧ n1 ≤ 3
      ∧ doy ≤ 365 ∧ (doy = 365 → n1 = 3 ∧ (n4 < 24 ∨ n100 = 3))
      ∧ civilFromDays z = (400 * n400 + 100 * n100 + 4 * n4 + n1, (5 * doy + 2) / 153,
          doy - (153 * ((5 * doy + 2) / 153) + 2) / 5 + 1) := by
  unfold civilFromDays
  simp only
  have hr : z % 146097 < 146097 := Nat.mod_lt _ (by norm_num)
  have hz : z = 146097 * (z / 146097) + z % 146097 := (Nat.div_add_mod z 146097).symm
  generalize z / 146097 = n400 at hz ⊢
  generalize z % 146097 = r at hr hz ⊢
  have h100 : r / 36524 ≤ 4 := by omega
  have hn100b : (if r / 36524 = 4 then 3 else r / 36524) ≤ 3 := by split <;> omega
  have hr2 : r - (if r / 36524 = 4 then 3 else r / 36524) * 36524 ≤ 36524 := by split <;> omega
  have hr2' : (if r / 36524 = 4 then 3 else r / 36524) * 36524 ≤ r := by split <;> omega
  have hr2lt : (if r / 36524 = 4 then 3 else r / 36524) < 3 →
      r - (if r / 36524 = 4 then 3 else r / 36524) * 36524 < 36524 := by split <;> omega
  generalize (if r / 36524 = 4 then 3 else r / 36524) = n100 at hn100b hr2 hr2' hr2lt ⊢
  generalize hr2e : r - n100 * 36524 = r2 at hr2 hr2lt ⊢
  have hn4 : r2 / 1461 ≤ 24 := by omega
  have hr3 : r2 % 1461 < 1461 := Nat.mod_lt _ (by norm_num)
  have hr2d : r2 = 1461 * (r2 / 1461) + r2 % 1461 := (Nat.div_add_mod r2 1461).symm
  generalize r2 / 1461 = n4 at hn4 hr2d ⊢
  generalize r2 % 1461 = r3 at hr3 hr2d ⊢
  have hn1b : (if r3 / 365 = 4 then 3 else r3 / 365) ≤ 3 := by split <;> omega
  have hdoy : r3 - (if r3 / 365 = 4 then 3 else r3 / 365) * 365 ≤ 365 := by split <;> omega
  have hdoy' : (if r3 / 365 = 4 then 3 else r3 / 365) * 365 ≤ r3 := by split <;> omega
  have hdoylt : (if r3 / 365 = 4 then 3 else r3 / 365) < 3 →
      r3 - (if r3 / 365 = 4 then 3 else r3 / 365) * 365 < 365 := by split <;> omega
  generalize (if r3 / 365 = 4 then 3 else r3 / 365) = n1 at hn1b hdoy hdoy' hdoylt ⊢
  generalize hdoye : r3 - n1 * 365 = doy at hdoy hdoylt ⊢
  refine ⟨n400, n100, n4, n1, doy, by omega, hn100b, hn4, hn1b, hdoy, ?_, rfl⟩
  intro h365
  omega

theorem days_civil (z : Nat) :
    daysFromCivil (civilFromDays z).1 (civilFromDays z).2.1 (civilFromDays z).2.2 = z := by
  obtain ⟨n400, n100, n4, n1, doy, hz, h100, h4, h1, hdoy, -, hc⟩ := civil_spec z
  rw [hc]
  unfold daysFromCivil
  simp only
  have e1 : (400 * n400 + 100 * n100 + 4 * n4 + n1) / 400 = n400 := by omega
  have e2 : (400 * n400 + 100 * n100 + 4 * n4 + n1) % 400 = 100 * n100 + 4 * n4 + n1 := by omega
  have e3 : (100 * n100 + 4 * n4 + n1) / 4 = 25 * n100 + n4 := by omega
  have e4 : (100 * n100 + 4 * n4 + n1) / 100 = n100 := by omega
  have e5 : (153 * ((5 * doy + 2) / 153) + 2) / 5 ≤ doy := by omega
  rw [e1, e2, e3, e4]
  generalize (153 * ((5 * doy + 2) / 153) + 2) / 5 = q at e5
  omega

theorem year_bounds (n400 n100 n4 n1 doy u : Nat)
    (hz : u + 146037 = 146097 * n400 + 36524 * n100 + 1461 * n4 + 365 * n1 + doy)
    (h100 : n100 ≤ 3) (h4 : n4 ≤ 24) (h1 : n1 ≤ 3) (hdoy : doy ≤ 365) (hu : u < 3652425) :
    (306 ≤ doy → 399 ≤ 400 * n400 + 100 * n100 + 4 * n4 + n1
        ∧ 400 * n400 + 100 * n100 + 4 * n4 + n1 < 10399)
      ∧ (doy < 306 → 400 ≤ 400 * n400 + 100 * n100 + 4 * n4 + n1
        ∧ 400 * n400 + 100 * n100 + 4 * n4 + n1 < 10400) := by
  have h25 : n400 ≤ 25 := by omega
  refine ⟨fun h => ⟨?_, ?_⟩, fun h => ⟨?_, ?_⟩⟩
  · by_cases h0 : n400 = 0
    · subst h0; omega
    · omega
  · by_cases h0 : n400 ≤ 24
    · omega
    · have : n400 = 25 := by omega
      subst this; omega
  · by_cases h0 : n400 = 0
    · subst h0; omega
    · omega
  · omega

theorem month_len (doy mp y : Nat) (hmp : (5 * doy + 2) / 153 = mp) (h : doy < 306) :
    doy - (153 * mp + 2) / 5 + 1 ≤ daysIn (mp + 3) y := by
  have h10 : mp < 10 := by omega
  unfold daysIn
  interval_cases mp <;> simp <;> omega

theorem feb_len (doy mp y : Nat) (hmp : (5 * doy + 2) / 153 = mp) (h : 306 ≤ doy) (hdoy : doy ≤ 365)
    (hleap : doy = 365 → y % 4 = 0 ∧ (y % 100 ≠ 0 ∨ y % 400 = 0)) :
    doy - (153 * mp + 2) / 5 + 1 ≤ daysIn (mp - 9) y := by
  have hmc : mp = 10 ∨ mp = 11 := by omega
  unfold daysIn
  rcases hmc with hmc | hmc
  · subst hmc; simp; omega
  · subst hmc
    simp only [show (11 - 9 = 2) from rfl, if_true]
    split
    · omega
    · rename_i hnl
      have : doy ≠ 365 := fun h365 => hnl (hleap h365)
      omega

/-- Facts about the calendar date of a day within the years 0 to 9999. -/
theorem dateOf_spec (u : Nat) (hu : u < 3652425) :
    (dateOf u).1 < 10000 ∧ 1 ≤ (dateOf u).2.1 ∧ (dateOf u).2.1 ≤ 12
      ∧ 1 ≤ (dateOf u).2.2 ∧ (dateOf u).2.2 ≤ daysIn (dateOf u).2.1 (dateOf u).1
      ∧ dayNumber (dateOf u).1 (dateOf u).2.1 (dateOf u).2.2 = u := by
  have hrt := days_civil (u + 146037)
  obtain ⟨n400, n100, n4, n1, doy, hz, h100, h4, h1, hdoy, hleap, hc⟩ := civil_spec (u + 146037)
  obtain ⟨yb1, yb2⟩ := year_bounds n400 n100 n4 n1 doy u hz h100 h4 h1 hdoy hu
  unfold dateOf dayNumber
  rw [hc] at hrt ⊢
  simp only at hrt ⊢
  clear hc hz
  have hmp : (5 * doy + 2) / 153 ≤ 11 := by omega
  have hmp10 : 10 ≤ (5 * doy + 2) / 153 ↔ 306 ≤ doy := by omega
  generalize hmpe : (5 * doy + 2) / 153 = mp at hrt hmp hmp10 ⊢
  by_cases h10 : 10 ≤ mp
  · have h10' : ¬ mp < 10 := by omega
    have hm2 : mp - 9 ≤ 2 := by omega
    have hm2' : ¬ 2 < mp - 9 := by omega
    have h306 : 306 ≤ doy := hmp10.1 h10
    obtain ⟨hlow, hhigh⟩ := yb1 h306
    simp only [if_pos h10, if_neg h10', if_pos hm2, if_neg hm2']
    have hy : 400 * n400 + 100 * n100 + 4 * n4 + n1 + 1 - 400 + 400 - 1
        = 400 * n400 + 100 * n100 + 4 * n4 + n1 := by omega
    have hm : mp - 9 + 9 = mp := by omega
    rw [hy, hm, hrt]
    refine ⟨by omega, by omega, by omega, by omega, ?_, by omega⟩
    apply feb_len doy mp _ hmpe h306 hdoy
    intro h365
    obtain ⟨hn1, hn⟩ := hleap h365
    clear hrt yb1 yb2 hy hm
    omega
  · have h10' : mp < 10 := by omega
    have hm2 : ¬ mp + 3 ≤ 2 := by omega
    have hm2' : 2 < mp + 3 := by omega
    have h306 : doy < 306 := by omega
    obtain ⟨hlow, hhigh⟩ := yb2 h306
    simp only [if_neg h10, if_pos h10', if_neg hm2, if_pos hm2']
    have hy : 400 * n400 + 100 * n100 + 4 * n4 + n1 + 0 - 400 + 400 - 0
        = 400 * n400 + 100 * n100 + 4 * n4 + n1 := by omega
    have hm : mp + 3 - 3 = mp := by omega
    rw [hy, hm, hrt]
    exact ⟨by omega, by omega, by omega, by omega, month_len doy mp _ hmpe h306, by omega⟩

theorem digitOf_digitChar (n : Nat) : digitOf (digitChar n) = some (n % 10) := by
  unfold digitChar
  have h : n % 10 < 10 := Nat.mod_lt _ (by norm_num)
  generalize n % 10 = k at h
  interval_cases k <;> rfl

theorem num2_two (n : Nat) (h : n < 100) : num2 (digitChar (n / 10)) (digitChar n) = some n := by
  unfold num2
  rw [digitOf_digitChar, digitOf_digitChar]
  simp only [Option.some.injEq]
  omega

theorem num4_four (n : Nat) (h : n < 10000) :
    num4 (digitChar (n / 1000)) (digitChar (n / 100)) (digitChar (n / 10)) (digitChar n) = some n := by
  unfold num4 num2
  rw [digitOf_digitChar, digitOf_digitChar, digitOf_digitChar, digitOf_digitChar]
  simp only [Option.some.injEq]
  omega

theorem spanDigits_map (ds : List Nat) (h : ∀ d ∈ ds, d < 10) :
    spanDigits (ds.map digitChar ++ ['Z']) = (ds, ['Z']) := by
  induction ds with
  | nil => rfl
  | cons d ds ih =>
    have hd : d % 10 = d := Nat.mod_eq_of_lt (h d (List.mem_cons_self _ _))
    have ih2 := ih (fun x hx => h x (List.mem_cons_of_mem _ hx))
    simp only [List.map_cons, List.cons_append, spanDigits, digitOf_digitChar, hd]
    change (d :: (spanDigits (ds.map digitChar ++ ['Z'])).1,
      (spanDigits (ds.map digitChar ++ ['Z'])).2) = _
    rw [ih2]

/-- Value of a list of decimal digits. -/
theorem foldl_digits_append_zeros (l : List Nat) (k a : Nat) :
    (l ++ List.replicate k 0).foldl (fun a d => 10 * a + d) a
      = l.foldl (fun a d => 10 * a + d) a * 10 ^ k := by
  rw [List.foldl_append]
  generalize l.foldl (fun a d => 10 * a + d) a = v
  induction k generalizing v with
  | zero => simp
  | succ k ih =>
    simp only [List.replicate_succ, List.foldl_cons, ih, Nat.add_zero]
    ring

theorem trimZeros_append (l : List Nat) :
    ∃ k, l = trimZeros l ++ List.replicate k 0 := by
  refine ⟨(l.reverse.takeWhile (fun d => d = 0)).length, ?_⟩
  have h1 : l.reverse = l.reverse.takeWhile (fun d => d = 0) ++ l.reverse.dropWhile (fun d => d = 0) :=
    (List.takeWhile_append_dropWhile _ _).symm
  have h2 : l.reverse.takeWhile (fun d => d = 0)
      = List.replicate (l.reverse.takeWhile (fun d => d = 0)).length 0 := by
    rw [List.eq_replicate_iff]
    refine ⟨rfl, fun b hb => ?_⟩
    have := List.mem_takeWhile_imp hb
    simpa using this
  have h3 : l = (l.reverse.dropWhile (fun d => d = 0)).reverse
      ++ (l.reverse.takeWhile (fun d => d = 0)).reverse := by
    rw [← List.reverse_append, ← h1, List.reverse_reverse]
  unfold trimZeros
  rw [h2, List.reverse_replicate, ← h2] at h3
  rw [h2, List.length_replicate, ← h2]
  exact h3

theorem trimZeros_mem (l : List Nat) (d : Nat) (h : d ∈ trimZeros l) : d ∈ l := by
  unfold trimZeros at h
  rw [List.mem_reverse] at h
  have := (List.dropWhile_sublist _).subset h
  simpa using this

theorem nineDigits_lt (n d : Nat) (h : d ∈ nineDigits n) : d < 10 := by
  simp only [nineDigits, List.mem_cons, List.mem_singleton, List.not_mem_nil, or_false] at h
  omega

theorem nanosOf_trimZeros (n : Nat) (h : n < 1000000000) : nanosOf (trimZeros (nineDigits n)) = n := by
  obtain ⟨k, hk⟩ := trimZeros_append (nineDigits n)
  have hlen : (trimZeros (nineDigits n)).length + k = 9 := by
    have := congrArg List.length hk
    simp only [List.length_append, List.length_replicate] at this
    rw [← this]
    rfl
  have hval : (nineDigits n).foldl (fun a d => 10 * a + d) 0 = n := by
    simp only [nineDigits, List.foldl_cons, List.foldl_nil]
    omega
  unfold nanosOf
  rw [List.take_of_length_le (by omega)]
  have hk9 : 9 - (trimZeros (nineDigits n)).length = k := by omega
  rw [hk9, ← foldl_digits_append_zeros, ← hk, hval]

theorem trimZeros_ne_nil (n : Nat) (h0 : n ≠ 0) (h : n < 1000000000) :
    trimZeros (nineDigits n) ≠ [] := by
  intro he
  have := nanosOf_trimZeros n h
  rw [he] at this
  simp [nanosOf] at this
  omega

theorem parseTail_fraction (n : Nat) (h : n < 1000000000) :
    parseTail (fraction n ++ ['Z']) = some (n, 0) := by
  unfold fraction
  by_cases h0 : n = 0
  · subst h0
    rfl
  · rw [if_neg h0]
    have hlt : ∀ d ∈ trimZeros (nineDigits n), d < 10 :=
      fun d hd => nineDigits_lt n d (trimZeros_mem _ d hd)
    have hsp := spanDigits_map (trimZeros (nineDigits n)) hlt
    have hv := nanosOf_trimZeros n h
    have hne := trimZeros_ne_nil n h0 h
    revert hsp hv hne hlt
    generalize trimZeros (nineDigits n) = ds
    intro hlt hsp hv hne
    cases ds with
    | nil => exact absurd rfl hne
    | cons d ds =>
      simp only [List.map_cons, List.cons_append] at hsp ⊢
      unfold parseTail
      simp only [digitOf_digitChar, Option.isSome_some, and_self, if_true, hsp, hv]
      rfl

theorem days_lt (u : Nat) (h : u < 315569520000000000000) : u / 1000000000 / 86400 < 3652425 := by
  omega

theorem clock_le (q : Nat) : q % 86400 / 3600 ≤ 23 ∧ q % 3600 / 60 ≤ 59 ∧ q % 60 ≤ 59 := by
  omega

theorem range_toNat (t : Int) (h1 : minInstant ≤ t) (h2 : t < maxInstant) :
    (t - minInstant).toNat < 315569520000000000000 := by
  unfold minInstant maxInstant at *
  omega

theorem instant_of_parts (t : Int) (h1 : minInstant ≤ t) (h2 : t < maxInstant) :
    instant (dateOf ((t - minInstant).toNat / 1000000000 / 86400)).1
        (dateOf ((t - minInstant).toNat / 1000000000 / 86400)).2.1
        (dateOf ((t - minInstant).toNat / 1000000000 / 86400)).2.2
        ((t - minInstant).toNat / 1000000000 % 86400 / 3600)
        ((t - minInstant).toNat / 1000000000 % 3600 / 60)
        ((t - minInstant).toNat / 1000000000 % 60)
        ((t - minInstant).toNat % 1000000000) = t := by
  have hu : ((t - minInstant).toNat : Int) = t - minInstant := Int.toNat_of_nonneg (by omega)
  have hub := range_toNat t h1 h2
  generalize (t - minInstant).toNat = u at hu hub
  have hd := days_lt u hub
  obtain ⟨-, -, -, -, -, hday⟩ := dateOf_spec _ hd
  unfold instant
  rw [hday]
  have hq : u / 1000000000 / 86400 * 86400 + u / 1000000000 % 86400 / 3600 * 3600
      + u / 1000000000 % 3600 / 60 * 60 + u / 1000000000 % 60 = u / 1000000000 := by
    generalize u / 1000000000 = q
    omega
  rw [hq, Nat.div_add_mod' u 1000000000, hu]
  omega

theorem parse_text (y m d h mi sec nanos : Nat) (zone : Int) (tail : List Char)
    (hy : y < 10000) (hm1 : 1 ≤ m) (hm12 : m ≤ 12) (hd1 : 1 ≤ d) (hdm : d ≤ daysIn m y)
    (hh : h ≤ 23) (hmi : mi ≤ 59) (hsec : sec ≤ 59) (htail : parseTail tail = some (nanos, zone)) :
    parseRFC3339 (String.mk (four y ++ '-' :: two m ++ '-' :: two d ++ 'T' :: two h
        ++ ':' :: two mi ++ ':' :: two sec ++ tail))
      = .ok (instant y m d h mi sec nanos - zone * 1000000000) := by
  have hd31 : d < 100 := by
    have : daysIn m y ≤ 31 := by
      unfold daysIn; split <;> split <;> omega
    omega
  have hcond : ¬ (m = 0 ∨ 12 < m ∨ d = 0 ∨ daysIn m y < d ∨ 23 < h ∨ 59 < mi ∨ 59 < sec) := by
    omega
  unfold parseRFC3339
  simp only [four, two, List.cons_append, List.nil_append, List.append_assoc]
  simp only [and_self, if_true]
  rw [num4_four _ hy, num2_two _ (by omega), num2_two _ hd31, num2_two _ (by omega),
    num2_two _ (by omega), num2_two _ (by omega)]
  simp only
  rw [if_neg hcond, htail]

/-- The reader accepts every text the writer produces and returns the instant written. -/
theorem parse_format (t : Int) (s : String) (h : formatRFC3339 t = .ok s) :
    parseRFC3339 s = .ok t := by
  unfold formatRFC3339 at h
  split at h
  · cases h
  · rename_i hrange
    have h1 : minInstant ≤ t := by omega
    have h2 : t < maxInstant := by omega
    have hinst := instant_of_parts t h1 h2
    have hub := range_toNat t h1 h2
    have hs := (Except.ok.inj h).symm
    subst hs
    generalize (t - minInstant).toNat = u at hinst hub
    have hd := days_lt u hub
    obtain ⟨hy, hm1, hm12, hd1, hdm, -⟩ := dateOf_spec _ hd
    have hnan : u % 1000000000 < 1000000000 := Nat.mod_lt _ (by norm_num)
    have htail := parseTail_fraction _ hnan
    have key := parse_text _ _ _ (u / 1000000000 % 86400 / 3600) (u / 1000000000 % 3600 / 60)
      (u / 1000000000 % 60) _ _ _ hy hm1 hm12 hd1 hdm (clock_le _).1 (clock_le _).2.1 (clock_le _).2.2 htail
    rw [hinst] at key
    simp only [dateText, List.append_assoc, List.cons_append] at key ⊢
    rw [key]
    simp


/-! ### The stored credential: what else the reader accepts -/

set_option maxRecDepth 100000 in
/-- The string reader on input that the encoder never writes: the escapes `\/`, `\b`
and `\f`, upper-case hexadecimal digits, a surrogate pair, lone surrogates, bytes that
are not UTF-8 (read as U+FFFD), and the refusal of control characters and of unknown or
malformed escapes. -/
theorem lexString_examples :
    lexString 0 (bytes "a\\/\\b\\f\\u00E9\\ud83d\\ude00\\ud83dx\\ude00\" tail") []
        = some (String.mk ['a', '/', Char.ofNat 8, Char.ofNat 12, 'é', '😀', Char.ofNat 0xFFFD,
            'x', Char.ofNat 0xFFFD], bytes " tail")
      ∧ lexString 0 [0x61, 0xff, 0xc3, 0xa9, 0xed, 0xa0, 0x80, 34] []
        = some (String.mk ['a', Char.ofNat 0xFFFD, 'é', Char.ofNat 0xFFFD, Char.ofNat 0xFFFD,
            Char.ofNat 0xFFFD], [])
      ∧ lexString 0 [0x61, 0x0a, 34] [] = none
      ∧ lexString 0 (bytes "\\'\"") [] = none
      ∧ lexString 0 (bytes "\\u12G4\"") [] = none
      ∧ lexString 0 (bytes "abc") [] = none := by
  decide

set_option maxRecDepth 100000 in
/-- The time reader on input that the writer never produces: zone offsets, a fraction
of more than nine digits, and the refusal of dates that do not exist, of an hour of
offset above 23, of a missing zone, of an empty fraction and of a wrong separator. -/
theorem parseRFC3339_examples :
    parseRFC3339 "2022-06-01T02:00:00.5+02:00" = .ok (june2022 + 500000000)
      ∧ parseRFC3339 "2022-05-31T19:00:00-05:00" = .ok june2022
      ∧ parseRFC3339 "2022-06-01T00:00:00.1234567899Z" = .ok (june2022 + 123456789)
      ∧ parseRFC3339 "2024-02-29T00:00:00Z" = .ok 63844761600000000000
      ∧ parseRFC3339 "0001-01-01T00:00:00Z" = .ok 0
      ∧ parseRFC3339 "2100-02-29T00:00:00Z" = .error "parsing time: value out of range"
      ∧ parseRFC3339 "2022-06-31T00:00:00Z" = .error "parsing time: value out of range"
      ∧ parseRFC3339 "2022-13-01T00:00:00Z" = .error "parsing time: value out of range"
      ∧ parseRFC3339 "2022-06-01T00:00:00+24:00" = .error "parsing time: bad fraction or zone"
      ∧ parseRFC3339 "2022-06-01T00:00:00" = .error "parsing time: bad fraction or zone"
      ∧ parseRFC3339 "2022-06-01T00:00:00.Z" = .error "parsing time: bad fraction or zone"
      ∧ parseRFC3339 "2022-06-01 00:00:00Z" = .error "parsing time: not an RFC 3339 time" :=
  ⟨rfl, rfl, rfl, rfl, rfl, rfl, rfl, rfl, rfl, rfl, rfl, rfl⟩

set_option maxRecDepth 100000 in
/-- The time writer at the ends of its range and on a fraction. -/
theorem formatRFC3339_examples :
    formatRFC3339 0 = .ok "0001-01-01T00:00:00Z"
      ∧ formatRFC3339 june2022 = .ok "2022-06-01T00:00:00Z"
      ∧ formatRFC3339 (june2022 + 120000000) = .ok "2022-06-01T00:00:00.12Z"
      ∧ formatRFC3339 (june2022 + 1) = .ok "2022-06-01T00:00:00.000000001Z"
      ∧ formatRFC3339 minInstant = .ok "0000-01-01T00:00:00Z"
      ∧ formatRFC3339 (maxInstant - 1) = .ok "9999-12-31T23:59:59.999999999Z"
      ∧ formatRFC3339 maxInstant = .error "Time.MarshalJSON: year outside of range [0,9999]"
      ∧ formatRFC3339 (minInstant - 1)
        = .error "Time.MarshalJSON: year outside of range [0,9999]" :=
  ⟨rfl, rfl, rfl, rfl, rfl, rfl, rfl, rfl⟩

set_option maxRecDepth 100000 in
/-- The encoder on the characters it escapes and on bytes that are not UTF-8. -/
theorem appendString_examples :
    appendString (bytes "a\"\\\n\r\t<>&") = bytes "\"a\\\"\\\\\\n\\r\\t\\u003c\\u003e\\u0026\""
      ∧ appendString [0x01, 0x7f, 0xe2, 0x80, 0xa8, 0xe2, 0x80, 0xa9]
        = bytes "\"\\u0001\x7f\\u2028\\u2029\""
      ∧ appendString [0xff, 0x61, 0xc3] = bytes "\"\\ufffda\\ufffd\""
      ∧ appendString (bytes "é€😀") = bytes "\"é€😀\""
      ∧ utf8Valid [0xff] = false ∧ utf8Valid [0xc0, 0x80] = false
      ∧ utf8Valid [0xed, 0xa0, 0x80] = false ∧ utf8Valid [0xf4, 0x90, 0x80, 0x80] = false
      ∧ utf8Valid [0xe2, 0x82] = false ∧ utf8Valid (bytes "é€😀") = true := by
  decide

/-! ### The stored credential: the token file -/

theorem skipWs_cons (b : UInt8) (rest : Bytes) (h : ¬ (b = 32 ∨ b = 9 ∨ b = 10 ∨ b = 13)) :
    skipWs (b :: rest) = b :: rest := by
  rw [skipWs, if_neg h]

/-- The value reader returns the text of a string the encoder wrote. -/
theorem parseValue_appendString (fuel : Nat) (t : String) (rest : Bytes) :
    parseValue (fuel + 1) (appendString (bytes t) ++ rest) = some (JSON.str t, rest) := by
  unfold appendString
  simp only [List.cons_append, List.append_assoc, List.singleton_append, List.nil_append]
  rw [parseValue, skipWs_cons _ _ (by decide)]
  simp only [if_true, lexString_appendString, Option.map_some']

/-- A text without characters that the encoder escapes is read back from its bytes. -/
theorem lexString_plain (s : String) (h : s.data.flatMap escapeRune = bytes s) (r : Bytes) :
    lexString 0 (bytes s ++ 34 :: r) [] = some (s, r) := by
  rw [← h, lexString_quoted]

/-- One member with a string value, followed by a comma. -/
theorem parseMembers_comma (fuel : Nat) (key : String) (K V rest : Bytes) (v : JSON)
    (hK : ∀ r, lexString 0 (K ++ 34 :: r) [] = some (key, r))
    (hV : ∀ r, parseValue fuel (V ++ r) = some (v, r)) :
    parseMembers (fuel + 1) (34 :: (K ++ 34 :: 58 :: (V ++ 44 :: rest)))
      = (parseMembers fuel rest).map (fun p => ((key, v) :: p.1, p.2)) := by
  rw [parseMembers, skipWs_cons _ _ (by decide)]
  simp only [if_true, hK, skipWs_cons (58 : UInt8) _ (by decide), hV,
    skipWs_cons (44 : UInt8) _ (by decide)]

/-- The last member of an object, with a plain text as its value. -/
theorem parseMembers_last (fuel : Nat) (key e : String) (K rest : Bytes)
    (hK : ∀ r, lexString 0 (K ++ 34 :: r) [] = some (key, r))
    (he : e.data.flatMap escapeRune = bytes e) :
    parseMembers (fuel + 2) (34 :: (K ++ 34 :: 58 :: 34 :: (bytes e ++ 34 :: 125 :: rest)))
      = some ([(key, JSON.str e)], rest) := by
  rw [parseMembers, skipWs_cons _ _ (by decide)]
  simp only [if_true, hK, skipWs_cons (58 : UInt8) _ (by decide)]
  rw [parseValue, skipWs_cons _ _ (by decide)]
  simp only [if_true, lexString_plain e he, Option.map_some', skipWs_cons (125 : UInt8) _ (by decide)]
  rfl

theorem escapeRune_digitChar (n : Nat) : escapeRune (digitChar n) = encodeRune (digitChar n) := by
  unfold digitChar
  have h : n % 10 < 10 := Nat.mod_lt _ (by norm_num)
  generalize n % 10 = k at h
  interval_cases k <;> rfl

/-- The text of a time stamp has no character that the encoder escapes. -/
theorem formatRFC3339_plain (t : Int) (s : String) (h : formatRFC3339 t = .ok s) :
    s.data.flatMap escapeRune = bytes s := by
  unfold formatRFC3339 at h
  split at h
  · cases h
  · have hs := (Except.ok.inj h).symm
    subst hs
    have hfrac : ∀ l : List Nat, (l.map digitChar).flatMap escapeRune
        = (l.map digitChar).flatMap encodeRune := by
      intro l
      induction l with
      | nil => rfl
      | cons d l ih => simp only [List.map_cons, List.flatMap_cons, escapeRune_digitChar, ih]
    have e1 : escapeRune '-' = encodeRune '-' := rfl
    have e2 : escapeRune 'T' = encodeRune 'T' := rfl
    have e3 : escapeRune ':' = encodeRune ':' := rfl
    have e4 : escapeRune '.' = encodeRune '.' := rfl
    have e5 : escapeRune 'Z' = encodeRune 'Z' := rfl
    unfold bytes
    simp only [dateText, four, two, fraction, List.cons_append, List.nil_append,
      List.flatMap_cons, List.flatMap_append, List.flatMap_nil, escapeRune_digitChar, e1, e2, e3, e5]
    split
    · rfl
    · simp only [List.flatMap_cons, hfrac, e4]

theorem tokenMember_access (t : Token) (s : String) :
    tokenMember refLib t ("access_token", JSON.str s) = .ok { t with AccessToken := bytes s } := by
  simp [tokenMember, matchField, decodeBytes, Except.map]

theorem tokenMember_type (t : Token) (s : String) :
    tokenMember refLib t ("token_type", JSON.str s) = .ok { t with TokenType := bytes s } := by
  simp [tokenMember, matchField, decodeBytes, Except.map]

theorem tokenMember_refresh (t : Token) (s : String) :
    tokenMember refLib t ("refresh_token", JSON.str s) = .ok { t with RefreshToken := bytes s } := by
  simp [tokenMember, matchField, decodeBytes, Except.map]

theorem tokenMember_expiry (t : Token) (s : String) :
    tokenMember refLib t ("expiry", JSON.str s)
      = (parseRFC3339 s).map (fun e => { t with Expiry := e }) := by
  simp [tokenMember, matchField, decodeTime, refLib]

theorem key_access (r : Bytes) :
    lexString 0 (bytes "access_token" ++ 34 :: r) [] = some ("access_token", r) :=
  lexString_plain "access_token" (by decide) r

theorem key_type (r : Bytes) :
    lexString 0 (bytes "token_type" ++ 34 :: r) [] = some ("token_type", r) :=
  lexString_plain "token_type" (by decide) r

theorem key_refresh (r : Bytes) :
    lexString 0 (bytes "refresh_token" ++ 34 :: r) [] = some ("refresh_token", r) :=
  lexString_plain "refresh_token" (by decide) r

theorem key_expiry (r : Bytes) :
    lexString 0 (bytes "expiry" ++ 34 :: r) [] = some ("expiry", r) :=
  lexString_plain "expiry" (by decide) r

/-- The object reader on the members that follow `access_token` in a stored token. -/
theorem parseMembers_token_tail (fuel : Nat) (ty r e : String)
    (he : e.data.flatMap escapeRune = bytes e) :
    parseMembers (fuel + 4)
        ((if bytes ty = [] then [] else 34 :: (bytes "token_type" ++ 34 :: 58 ::
            (appendString (bytes ty) ++ [44])))
          ++ ((if bytes r = [] then [] else 34 :: (bytes "refresh_token" ++ 34 :: 58 ::
            (appendString (bytes r) ++ [44])))
          ++ 34 :: (bytes "expiry" ++ 34 :: 58 :: 34 :: (bytes e ++ [34, 125]))))
      = some ((if bytes ty = [] then [] else [("token_type", JSON.str ty)])
          ++ (if bytes r = [] then [] else [("refresh_token", JSON.str r)])
          ++ [("expiry", JSON.str e)], []) := by
  by_cases h1 : bytes ty = [] <;> by_cases h2 : bytes r = []
  · simp only [if_pos h1, if_pos h2, List.nil_append]
    exact parseMembers_last (fuel + 2) "expiry" e _ [] key_expiry he
  · simp only [if_pos h1, if_neg h2, List.nil_append, List.cons_append, List.append_assoc,
      List.singleton_append]
    rw [parseMembers_comma (fuel + 3) "refresh_token" _ _ _ (JSON.str r) key_refresh
      (parseValue_appendString (fuel + 2) r)]
    rw [parseMembers_last (fuel + 1) "expiry" e _ [] key_expiry he]
    rfl
  · simp only [if_neg h1, if_pos h2, List.nil_append, List.cons_append, List.append_assoc,
      List.singleton_append]
    rw [parseMembers_comma (fuel + 3) "token_type" _ _ _ (JSON.str ty) key_type
      (parseValue_appendString (fuel + 2) ty)]
    rw [parseMembers_last (fuel + 1) "expiry" e _ [] key_expiry he]
    rfl
  · simp only [if_neg h1, if_neg h2, List.nil_append, List.cons_append, List.append_assoc,
      List.singleton_append]
    rw [parseMembers_comma (fuel + 3) "token_type" _ _ _ (JSON.str ty) key_type
      (parseValue_appendString (fuel + 2) ty)]
    rw [parseMembers_comma (fuel + 2) "refresh_token" _ _ _ (JSON.str r) key_refresh
      (parseValue_appendString (fuel + 1) r)]
    rw [parseMembers_last fuel "expiry" e _ [] key_expiry he]
    rfl

/-- The bytes `json.Marshal` writes for a token, grouped member by member. -/
theorem marshalled_form (a ty r : Bytes) (e : String) :
    bytes "\x7b\"access_token\":" ++ appendString a
        ++ (if ty = [] then [] else bytes ",\"token_type\":" ++ appendString ty)
        ++ (if r = [] then [] else bytes ",\"refresh_token\":" ++ appendString r)
        ++ bytes ",\"expiry\":\"" ++ bytes e ++ bytes "\"\x7d"
      = 123 :: 34 :: (bytes "access_token" ++ 34 :: 58 :: (appendString a ++ 44 ::
          ((if ty = [] then [] else 34 :: (bytes "token_type" ++ 34 :: 58 ::
              (appendString ty ++ [44])))
            ++ ((if r = [] then [] else 34 :: (bytes "refresh_token" ++ 34 :: 58 ::
              (appendString r ++ [44])))
            ++ 34 :: (bytes "expiry" ++ 34 :: 58 :: 34 :: (bytes e ++ [34, 125])))))) := by
  have p1 : bytes "\x7b\"access_token\":" = 123 :: 34 :: (bytes "access_token" ++ [34, 58]) := by
    decide
  have p2 : bytes ",\"token_type\":" = 44 :: 34 :: (bytes "token_type" ++ [34, 58]) := by decide
  have p3 : bytes ",\"refresh_token\":" = 44 :: 34 :: (bytes "refresh_token" ++ [34, 58]) := by
    decide
  have p4 : bytes ",\"expiry\":\"" = 44 :: 34 :: (bytes "expiry" ++ [34, 58, 34]) := by decide
  have p5 : bytes "\"\x7d" = [34, 125] := by decide
  rw [p1, p2, p3, p4, p5]
  by_cases h1 : ty = [] <;> by_cases h2 : r = [] <;>
    simp only [h1, h2, if_true, if_false, List.nil_append, List.cons_append, List.append_assoc,
      List.singleton_append, List.append_nil]

/-- The reader accepts the bytes written for a token whose strings are texts and returns
the object with the members written. -/
theorem parseDocument_token (a ty r e : String) (he : e.data.flatMap escapeRune = bytes e) :
    parseDocument (bytes "\x7b\"access_token\":" ++ appendString (bytes a)
        ++ (if bytes ty = [] then [] else bytes ",\"token_type\":" ++ appendString (bytes ty))
        ++ (if bytes r = [] then [] else bytes ",\"refresh_token\":" ++ appendString (bytes r))
        ++ bytes ",\"expiry\":\"" ++ bytes e ++ bytes "\"\x7d")
      = .ok (JSON.obj (("access_token", JSON.str a)
          :: ((if bytes ty = [] then [] else [("token_type", JSON.str ty)])
            ++ (if bytes r = [] then [] else [("refresh_token", JSON.str r)])
            ++ [("expiry", JSON.str e)]))) := by
  rw [marshalled_form]
  unfold parseDocument
  generalize htail : ((if bytes ty = [] then [] else 34 :: (bytes "token_type" ++ 34 :: 58 ::
              (appendString (bytes ty) ++ [44])))
            ++ ((if bytes r = [] then [] else 34 :: (bytes "refresh_token" ++ 34 :: 58 ::
              (appendString (bytes r) ++ [44])))
            ++ 34 :: (bytes "expiry" ++ 34 :: 58 :: 34 :: (bytes e ++ [34, 125])))) = tail
  have hk : (bytes "access_token").length = 12 := by decide
  obtain ⟨f, hf⟩ : ∃ f, (123 :: 34 :: (bytes "access_token" ++ 34 :: 58 ::
      (appendString (bytes a) ++ 44 :: tail))).length + 1 = f + 6 := by
    refine ⟨(123 :: 34 :: (bytes "access_token" ++ 34 :: 58 ::
      (appendString (bytes a) ++ 44 :: tail))).length - 5, ?_⟩
    simp only [List.length_cons, List.length_append, hk]
    omega
  rw [hf, parseValue, skipWs_cons _ _ (by decide)]
  simp only [show ¬ ((123 : UInt8) = 34) by decide, show ¬ ((123 : UInt8) = 91) by decide,
    if_false, if_true, skipWs_cons (34 : UInt8) _ (by decide),
    show ¬ ((34 : UInt8) = 125) by decide]
  rw [parseMembers_comma (f + 4) "access_token" _ _ _ (JSON.str a) key_access
    (parseValue_appendString (f + 3) a)]
  rw [← htail, parseMembers_token_tail f ty r e he]
  rfl

/-- Unmarshalling what was marshalled for a token whose strings are texts. -/
theorem unmarshal_marshal_text (a ty r : String) (x : Int) (out : Bytes)
    (hout : marshalToken refLib ⟨bytes a, bytes ty, bytes r, x⟩ = .ok out) :
    unmarshalToken refLib out = .ok ⟨bytes a, bytes ty, bytes r, x⟩ := by
  unfold marshalToken at hout
  change (match formatRFC3339 x with
    | .error e => Except.error e
    | .ok e => Except.ok _) = _ at hout
  cases hs : formatRFC3339 x with
  | error e => rw [hs] at hout; cases hout
  | ok e =>
    rw [hs] at hout
    have hout2 := (Except.ok.inj hout).symm
    subst hout2
    have hparse := parse_format x e hs
    unfold unmarshalToken
    change (match parseDocument _ with
      | .error e => Except.error e
      | .ok v => decodeStruct refLib (tokenMember refLib) Token.zero v) = _
    simp only
    rw [parseDocument_token a ty r e (formatRFC3339_plain x e hs)]
    by_cases h1 : bytes ty = [] <;> by_cases h2 : bytes r = [] <;>
      simp [h1, h2, decodeStruct, List.foldlM, tokenMember_access, tokenMember_type,
        tokenMember_refresh, tokenMember_expiry, hparse, Token.zero, Except.map, bind,
        Except.bind] <;> rfl

/-- `Time.MarshalJSON` succeeds exactly on the instants of the years 0 to 9999, so
`json.Marshal` succeeds exactly on the tokens that expire in these years. -/
theorem marshalToken_ok_iff (c : Token) :
    (∃ out, marshalToken refLib c = .ok out) ↔ minInstant ≤ c.Expiry ∧ c.Expiry < maxInstant := by
  unfold marshalToken
  change (∃ out, (match formatRFC3339 c.Expiry with
    | .error e => Except.error e
    | .ok e => Except.ok _) = Except.ok out) ↔ _
  unfold formatRFC3339
  by_cases h : c.Expiry < minInstant ∨ maxInstant ≤ c.Expiry
  · rw [if_pos h]
    constructor
    · rintro ⟨out, ho⟩
      cases ho
    · intro h2
      omega
  · rw [if_neg h]
    constructor
    · intro _
      omega
    · intro _
      exact ⟨_, rfl⟩

/-- C4 (amended): for every credential `c` whose access token, token type and refresh
token are valid UTF-8 and whose expiry lies in the years 0 to 9999, `json.Marshal`
succeeds with some bytes `out`; the store step of `main` holding `c` writes exactly
`out` (mode 0600); `json.Unmarshal` into a zero `oauth2.Token` accepts `out` and yields
a credential equal to `c` in access token, token type, refresh token and expiry; and a
run whose token file holds `out` continues from line 111 with `token` equal to `c`. -/
theorem stored_token_round_trip (c : Token)
    (ha : utf8Valid c.AccessToken = true) (hty : utf8Valid c.TokenType = true)
    (hr : utf8Valid c.RefreshToken = true)
    (hx : minInstant ≤ c.Expiry ∧ c.Expiry < maxInstant) :
    ∃ out, marshalToken refLib c = .ok out
      ∧ (∀ (w : World) (creds : ClientCreds) (chan tokenPath : String) (listening : Bool)
          (st : Shared), st.token = some c →
          ∃ rest, (store refLib w creds chan tokenPath listening st).events
            = Event.writeFile tokenPath out 0o600 :: rest)
      ∧ unmarshalToken refLib out = .ok c
      ∧ (∀ (w : World) (creds : ClientCreds) (chan tokenPath : String),
          w.readFile tokenPath = .ok out →
          loadToken refLib w creds chan tokenPath =
            Run.after [Event.readFile tokenPath]
              (authenticated refLib w creds chan tokenPath false
                { token := some c, closed := false, exchanges := 0 })) := by
  obtain ⟨out, hout⟩ := (marshalToken_ok_iff c).2 hx
  obtain ⟨a, ha2⟩ := exists_text_of_valid _ ha
  obtain ⟨ty, hty2⟩ := exists_text_of_valid _ hty
  obtain ⟨r, hr2⟩ := exists_text_of_valid _ hr
  have hc : c = ⟨bytes a, bytes ty, bytes r, c.Expiry⟩ := by
    rw [ha2, hty2, hr2]
  have hrt : unmarshalToken refLib out = .ok c := by
    rw [hc] at hout ⊢
    exact unmarshal_marshal_text a ty r _ out hout
  refine ⟨out, hout, ?_, hrt, ?_⟩
  · intro w creds chan tokenPath listening st hst
    unfold store
    simp only [hst, marshalTokenPtr, hout, Run.after, List.singleton_append]
    exact ⟨_, rfl⟩
  · intro w creds chan tokenPath hread
    simp [loadToken, hread, hrt]

set_option maxRecDepth 100000 in
theorem stored_token_round_trip_witness :
    (utf8Valid (bytes "at1") = true ∧ utf8Valid [] = true
        ∧ utf8Valid (bytes "r\"é€😀\n") = true
        ∧ minInstant ≤ june2022 + 120000000 ∧ june2022 + 120000000 < maxInstant)
      ∧ marshalToken refLib ⟨bytes "at1", [], bytes "r\"é€😀\n", june2022 + 120000000⟩
          = .ok (bytes ("\x7b\"access_token\":\"at1\",\"refresh_token\":\"r\\\"é€😀\\n\","
              ++ "\"expiry\":\"2022-06-01T00:00:00.12Z\"\x7d"))
      ∧ unmarshalToken refLib (bytes ("\x7b\"access_token\":\"at1\",\"refresh_token\":\"r\\\"é€😀\\n\","
              ++ "\"expiry\":\"2022-06-01T00:00:00.12Z\"\x7d"))
          = .ok ⟨bytes "at1", [], bytes "r\"é€😀\n", june2022 + 120000000⟩ :=
  ⟨⟨by decide, by decide, by decide, by decide, by decide⟩, rfl,
   match stored_token_round_trip ⟨bytes "at1", [], bytes "r\"é€😀\n", june2022 + 120000000⟩
      (by decide) (by decide) (by decide) ⟨by decide, by decide⟩ with
   | ⟨_, h1, _, h3, _⟩ =>
     (Except.ok.inj ((show marshalToken refLib
        ⟨bytes "at1", [], bytes "r\"é€😀\n", june2022 + 120000000⟩
          = .ok (bytes ("\x7b\"access_token\":\"at1\",\"refresh_token\":\"r\\\"é€😀\\n\","
              ++ "\"expiry\":\"2022-06-01T00:00:00.12Z\"\x7d")) from rfl).symm.trans h1)) ▸ h3⟩

set_option maxRecDepth 100000 in
/-- C4 (as stated) fails for a credential whose access token is not valid UTF-8: for the
one-byte access token `0xff`, `json.Marshal` writes the escape of U+FFFD, and
`json.Unmarshal` of the stored bytes yields the three bytes of U+FFFD as access token. -/
theorem invalid_utf8_token_not_restored :
    marshalToken refLib ⟨[0xff], [], [], june2022⟩
        = .ok (bytes "\x7b\"access_token\":\"\\ufffd\",\"expiry\":\"2022-06-01T00:00:00Z\"\x7d")
      ∧ unmarshalToken refLib
          (bytes "\x7b\"access_token\":\"\\ufffd\",\"expiry\":\"2022-06-01T00:00:00Z\"\x7d")
        = .ok ⟨[0xef, 0xbf, 0xbd], [], [], june2022⟩
      ∧ (⟨[0xef, 0xbf, 0xbd], [], [], june2022⟩ : Token) ≠ ⟨[0xff], [], [], june2022⟩ :=
  ⟨rfl, rfl, by decide⟩

end TwitchSearch
